import Mathlib

/-!
Shallow embedding of the full-block download engine in
`crates/net/p2p/src/full_block.rs`: the single-block fetcher
(`FetchFullBlockFuture`) and the range fetcher (`FetchFullBlockRangeFuture`),
together with the data model they operate on.

Each fetcher is embedded as an explicit state record plus a step function that
consumes one sub-request response (the body of one iteration of the
hand-written poll loop) and returns the new state, the list of externally
visible effects emitted during that iteration (bad-peer reports and re-issued
sub-requests, in emission order), and the resolved output when the future
completes.  The untrusted peer is the environment: it chooses the content of
every response.
-/

/-- Block hash: a 32-byte digest, modelled as a natural number. -/
abbrev Hash := Nat

/-- Opaque identifier of a remote peer; only forwarded to bad-peer reports. -/
abbrev PeerId := Nat

/-- Block header: parent hash, height, and the material the body is validated
against (the transaction root standing in for all payload commitments). -/
structure Header where
  parentHash : Hash
  number : Nat
  txRoot : Nat
deriving DecidableEq, Repr

/-- Sealed header: a header together with its cached hash (`Sealed<Header>`). -/
structure SealedHeader where
  header : Header
  hash : Hash
deriving DecidableEq, Repr

/-- Modelled from the spec: headers are sealable and sealing computes the
header's own digest from its contents (the real code uses the keccak-based
`Sealable::hash_slow`, which lives outside this crate).  An injective
encoding of the header fields stands in for the digest. -/
def hashHeader (h : Header) : Hash :=
  Nat.pair h.parentHash (Nat.pair h.number h.txRoot)

/-- Seal a header, caching its recomputed hash (`seal_slow`). -/
def Header.sealSlow (h : Header) : SealedHeader :=
  { header := h, hash := hashHeader h }

/-- Block body, opaque except for the commitment checked by body validation. -/
structure Body where
  txRoot : Nat
deriving DecidableEq, Repr

/-- Sealed block: the sealed header paired with its body. -/
abbrev SealedBlock := SealedHeader × Body

/-- Modelled from the spec: `Consensus::validate_body` (invoked through
`T::validate_block` in the source) is the cheap structural check of the body
against the header's transaction root; the implementation lives in the
external `reth_consensus` crate. -/
def validateBody (h : Header) (b : Body) : Bool :=
  h.txRoot == b.txRoot

/-- Modelled from the spec: `Consensus::validate_header_range` verifies
parent/child linkage over a contiguous rising sequence: each child's parent
hash is the parent's seal and each child's number is the parent's number plus
one; the implementation lives in the external `reth_consensus` crate. -/
def validateHeaderRange : List SealedHeader → Bool
  | [] => true
  | [_] => true
  | a :: b :: rest =>
      (b.header.parentHash == a.hash && b.header.number == a.header.number + 1) &&
        validateHeaderRange (b :: rest)

/-- Body slot contents while a body is in flight (`BodyResponse`). -/
inductive BodyResp where
  /-- Already validated against the transaction root of the header. -/
  | validated (b : Body)
  /-- Still needs to be validated against the header; carries the peer that
  produced it (`WithPeerId`). -/
  | pendingValidation (peer : PeerId) (b : Body)
deriving DecidableEq, Repr

/-- Externally visible effects a fetcher emits while handling one response. -/
inductive Effect where
  /-- `report_bad_message` with the originating peer id. -/
  | reportBadPeer (p : PeerId)
  /-- `get_header(hash)` re-issued by the single-block fetcher. -/
  | issueSingleHeaderReq (h : Hash)
  /-- `get_block_body(hash)` re-issued by the single-block fetcher. -/
  | issueSingleBodyReq (h : Hash)
  /-- `get_headers(start, limit, Falling)` issued by the range fetcher. -/
  | issueHeaderReq (start : Hash) (limit : Nat)
  /-- `get_block_bodies(hashes)` issued by the range fetcher. -/
  | issueBodyReq (hashes : List Hash)
deriving DecidableEq, Repr

/-- Returns true when the effect is a bad-peer report. -/
def Effect.isReport : Effect → Bool
  | .reportBadPeer _ => true
  | _ => false

/-- Number of bad-peer reports in an effect list. -/
def countReports (effs : List Effect) : Nat :=
  (effs.filter Effect.isReport).length

/-! ### Association-list model of `HashMap<Sealed<Header>, BodyResponse>` -/

/-- The bodies map: received bodies keyed by their sealed header. -/
abbrev BodyMap := List (SealedHeader × BodyResp)

/-- Keys of the bodies map. -/
def mapKeys (m : BodyMap) : List SealedHeader :=
  m.map Prod.fst

/-- `HashMap::insert`: replaces the value under an existing key, otherwise
appends a fresh entry. -/
def mapInsert : BodyMap → SealedHeader → BodyResp → BodyMap
  | [], k, v => [(k, v)]
  | (k0, v0) :: rest, k, v =>
      if k0 = k then (k, v) :: rest else (k0, v0) :: mapInsert rest k v

/-- `HashMap::remove`: returns the removed value, if any, and the rest. -/
def mapRemove : BodyMap → SealedHeader → Option BodyResp × BodyMap
  | [], _ => (none, [])
  | (k0, v0) :: rest, k =>
      if k0 = k then (some v0, rest)
      else
        let r := mapRemove rest k
        (r.1, (k0, v0) :: r.2)

/-! ### Defensive sort of the header response (`sort_unstable_by_key(Reverse(number))`) -/

/-- Inserts a sealed header into a list kept in descending block-number order. -/
def insertDesc (x : SealedHeader) : List SealedHeader → List SealedHeader
  | [] => [x]
  | y :: ys => if y.header.number < x.header.number then x :: y :: ys else y :: insertDesc x ys

/-- Sorts sealed headers from highest to lowest block number. -/
def sortByNumberDesc : List SealedHeader → List SealedHeader
  | [] => []
  | x :: xs => insertDesc x (sortByNumberDesc xs)

/-! ### Single-block fetcher (`FetchFullBlockFuture`) -/

/-- State of the single-block fetcher at a suspension point.  The two request
flags model whether the corresponding single-shot sub-request future is
currently in flight (`FullBlockRequest`). -/
structure SingleState where
  hash : Hash
  reqHeader : Bool
  reqBody : Bool
  header : Option SealedHeader
  body : Option BodyResp
deriving DecidableEq, Repr

/-- `FullBlockClient::get_full_block`: both sub-requests are issued
immediately, both slots start empty. -/
def getFullBlock (h : Hash) : SingleState :=
  { hash := h, reqHeader := true, reqBody := true, header := none, body := none }

/-- Handling of a successful header payload inside the poll loop of the
single-block fetcher: seal the header, store it only when the recomputed seal
equals the requested hash, otherwise report the peer. -/
def onHeaderResponseSingle (s : SingleState) (peer : PeerId) (mh : Option Header) :
    SingleState × List Effect :=
  match mh with
  | some hd =>
      let sh := hd.sealSlow
      if sh.hash ≠ s.hash then (s, [Effect.reportBadPeer peer])
      else ({ s with header := some sh }, [])
  | none => (s, [])

/-- `FetchFullBlockFuture::on_block_response`: validate against the stored
header when present, otherwise hold the body as pending validation. -/
def onBlockResponse (s : SingleState) (peer : PeerId) (b : Body) :
    SingleState × List Effect :=
  match s.header with
  | some sh =>
      if validateBody sh.header b then ({ s with body := some (BodyResp.validated b) }, [])
      else (s, [Effect.reportBadPeer peer])
  | none => ({ s with body := some (BodyResp.pendingValidation peer b) }, [])

/-- `FetchFullBlockFuture::take_block`: resolve once both slots are filled,
running deferred validation now; on failure report the peer, keep the header,
clear the body slot and re-issue the body sub-request. -/
def takeBlock (s : SingleState) : SingleState × List Effect × Option SealedBlock :=
  match s.header, s.body with
  | some sh, some resp =>
      let s0 := { s with header := none, body := none }
      match resp with
      | BodyResp.validated b => (s0, [], some (sh, b))
      | BodyResp.pendingValidation p b =>
          if validateBody sh.header b then (s0, [], some (sh, b))
          else ({ s0 with header := some sh, reqBody := true },
                [Effect.reportBadPeer p, Effect.issueSingleBodyReq s.hash], none)
  | _, _ => (s, [], none)

/-- One completed sub-request of the single-block fetcher, as chosen by the
untrusted environment: the payload on success, or a transport error. -/
inductive SingleEvent where
  | headerRes (res : Except Unit (PeerId × Option Header))
  | bodyRes (res : Except Unit (PeerId × Option Body))

/-- Header half of one `FetchFullBlockFuture::poll` iteration: handle the
completed header sub-request and re-issue it when the header slot is still
empty. -/
def headerPhaseSingle (s : SingleState) (res : Except Unit (PeerId × Option Header)) :
    SingleState × List Effect :=
  let sA := { s with reqHeader := false }
  let r1 :=
    match res with
    | Except.ok (peer, mh) => onHeaderResponseSingle sA peer mh
    | Except.error _ => (sA, [])
  if r1.1.header.isNone then
    ({ r1.1 with reqHeader := true }, r1.2 ++ [Effect.issueSingleHeaderReq r1.1.hash])
  else r1

/-- Body half of one `FetchFullBlockFuture::poll` iteration: handle the
completed body sub-request and re-issue it when the body slot is still
empty. -/
def bodyPhaseSingle (s : SingleState) (res : Except Unit (PeerId × Option Body)) :
    SingleState × List Effect :=
  let sA := { s with reqBody := false }
  let r1 :=
    match res with
    | Except.ok (peer, some b) => onBlockResponse sA peer b
    | Except.ok (_, none) => (sA, [])
    | Except.error _ => (sA, [])
  if r1.1.body.isNone then
    ({ r1.1 with reqBody := true }, r1.2 ++ [Effect.issueSingleBodyReq r1.1.hash])
  else r1

/-- One iteration of `FetchFullBlockFuture::poll`: consume the completed
sub-request, re-issue it when its slot is still empty, then attempt to
resolve via `take_block`. -/
def singleStep (s : SingleState) (e : SingleEvent) :
    SingleState × List Effect × Option SealedBlock :=
  let r2 :=
    match e with
    | SingleEvent.headerRes res => headerPhaseSingle s res
    | SingleEvent.bodyRes res => bodyPhaseSingle s res
  let r3 := takeBlock r2.1
  (r3.1, r2.2 ++ r3.2.1, r3.2.2)

/-- Reachable suspension states of the single-block fetcher: a header event
can fire only while its sub-request is in flight, likewise for bodies, and
only steps that did not resolve lead to a new suspension state. -/
inductive SReach (h : Hash) : SingleState → Prop where
  | init : SReach h (getFullBlock h)
  | header (s s2 : SingleState) (res : Except Unit (PeerId × Option Header))
      (effs : List Effect) :
      SReach h s → s.reqHeader = true →
      singleStep s (SingleEvent.headerRes res) = (s2, effs, none) → SReach h s2
  | body (s s2 : SingleState) (res : Except Unit (PeerId × Option Body))
      (effs : List Effect) :
      SReach h s → s.reqBody = true →
      singleStep s (SingleEvent.bodyRes res) = (s2, effs, none) → SReach h s2

/-! ### Range fetcher (`FetchFullBlockRangeFuture`) -/

/-- State of the range fetcher at a suspension point.  `reqHeaders` models
whether the header-range sub-request future is in flight; `reqBodies`, when
some, records the hash list the in-flight bodies sub-request was issued for
(`FullBlockRangeRequest`). -/
structure RangeState where
  startHash : Hash
  count : Nat
  reqHeaders : Bool
  reqBodies : Option (List Hash)
  headers : Option (List SealedHeader)
  pendingHeaders : List SealedHeader
  bodies : BodyMap
deriving DecidableEq, Repr

/-- `FullBlockClient::get_full_block_range`: the header-range request is
issued immediately; no body request exists yet. -/
def getFullBlockRange (h : Hash) (n : Nat) : RangeState :=
  { startHash := h, count := n, reqHeaders := true, reqBodies := none,
    headers := none, pendingHeaders := [], bodies := [] }

/-- `FetchFullBlockRangeFuture::is_bodies_complete`. -/
def isBodiesComplete (s : RangeState) : Bool :=
  s.bodies.length == s.count

/-- `FetchFullBlockRangeFuture::insert_body`: pair the body with the front of
the pending-header queue; silently a no-op when no header is pending. -/
def insertBody (s : RangeState) (r : BodyResp) : RangeState :=
  match s.pendingHeaders with
  | [] => s
  | h :: rest => { s with pendingHeaders := rest, bodies := mapInsert s.bodies h r }

/-- `FetchFullBlockRangeFuture::insert_bodies`. -/
def insertBodies (s : RangeState) (rs : List BodyResp) : RangeState :=
  rs.foldl insertBody s

/-- `FetchFullBlockRangeFuture::remaining_bodies_hashes`. -/
def remainingBodiesHashes (s : RangeState) : List Hash :=
  s.pendingHeaders.map (fun x => x.hash)

/-- `FetchFullBlockRangeFuture::on_headers_response`: accept the header range
only when its length matches the requested count, the first element after the
defensive descending sort carries the requested start hash, and the rising
view passes consensus validation.  Returns `none` exactly when the code would
panic, namely when the index access `headers_falling[0]` is reached with an
empty vector. -/
def onHeadersResponse (s : RangeState) (peer : PeerId) (hdrs : List Header) :
    Option (RangeState × List Effect) :=
  let headersFalling := hdrs.map Header.sealSlow
  if headersFalling.length = s.count then
    let sorted := sortByNumberDesc headersFalling
    match sorted.head? with
    | none => none
    | some h0 =>
        if h0.hash ≠ s.startHash then some (s, [Effect.reportBadPeer peer])
        else
          let headersRising := sorted.reverse
          if validateHeaderRange headersRising then
            let hashes := sorted.map (fun x => x.hash)
            let s1 := { s with pendingHeaders := sorted }
            if s1.reqBodies.isNone then
              some ({ s1 with reqBodies := some hashes, headers := some sorted },
                    [Effect.issueBodyReq hashes])
            else some ({ s1 with headers := some sorted }, [])
          else some (s, [Effect.reportBadPeer peer])
  else some (s, [])

/-- Accumulator of the assembly loop inside `take_blocks`: the mutated bodies
map and pending queue, the blocks validated so far, the effects emitted, and
the retry flag. -/
structure TBAcc where
  bodies : BodyMap
  pending : List SealedHeader
  valid : List SealedBlock
  effs : List Effect
  needsRetry : Bool
deriving DecidableEq, Repr

/-- Assembly loop of `take_blocks`: walk the stored headers in order, take
each one's body from the map, run deferred validation, and on failure report
the peer and push the header back onto the pending queue. -/
def takeBlocksLoop : List SealedHeader → TBAcc → TBAcc
  | [], acc => acc
  | h :: rest, acc =>
      let r := mapRemove acc.bodies h
      match r.1 with
      | none => takeBlocksLoop rest { acc with bodies := r.2 }
      | some (BodyResp.validated b) =>
          takeBlocksLoop rest { acc with bodies := r.2, valid := acc.valid ++ [(h, b)] }
      | some (BodyResp.pendingValidation p b) =>
          if validateBody h.header b then
            takeBlocksLoop rest { acc with bodies := r.2, valid := acc.valid ++ [(h, b)] }
          else
            takeBlocksLoop rest
              { acc with
                bodies := r.2
                pending := acc.pending ++ [h]
                effs := acc.effs ++ [Effect.reportBadPeer p]
                needsRetry := true }

/-- `FetchFullBlockRangeFuture::take_blocks`: once one body per requested
block is present, assemble the blocks in stored (descending) order; if any
deferred validation fails, keep the already validated work in the map,
restore the headers, and re-issue a bodies request for the failures. -/
def takeBlocks (s : RangeState) : RangeState × List Effect × Option (List SealedBlock) :=
  if isBodiesComplete s then
    match s.headers with
    | none => (s, [], none)
    | some hs =>
        let s0 := { s with headers := none }
        let acc := takeBlocksLoop hs
          { bodies := s0.bodies, pending := s0.pendingHeaders, valid := [],
            effs := [], needsRetry := false }
        if acc.needsRetry then
          let bodies2 := acc.valid.foldl
            (fun m blk => mapInsert m blk.1 (BodyResp.validated blk.2)) acc.bodies
          let s1 := { s0 with
                      bodies := bodies2
                      pendingHeaders := acc.pending
                      headers := some hs }
          let hashes := remainingBodiesHashes s1
          ({ s1 with reqBodies := some hashes },
           acc.effs ++ [Effect.issueBodyReq hashes], none)
        else
          ({ s0 with bodies := acc.bodies, pendingHeaders := acc.pending },
           acc.effs, some acc.valid)
  else (s, [], none)

/-- One completed sub-request of the range fetcher, as chosen by the
untrusted environment. -/
inductive RangeEvent where
  | headerRes (res : Except Unit (PeerId × List Header))
  | bodyRes (res : Except Unit (PeerId × List Body))

/-- Header-range half of one `FetchFullBlockRangeFuture::poll` iteration:
handle the completed header-range sub-request and re-issue it while no header
range has been accepted.  Returns `none` exactly when the code would panic
inside `on_headers_response`. -/
def headerPhaseRange (s : RangeState) (res : Except Unit (PeerId × List Header)) :
    Option (RangeState × List Effect) :=
  let sA := { s with reqHeaders := false }
  let handled :=
    match res with
    | Except.ok (peer, hdrs) => onHeadersResponse sA peer hdrs
    | Except.error _ => some (sA, [])
  match handled with
  | none => none
  | some (s1, eff1) =>
      if s1.headers.isNone then
        some ({ s1 with reqHeaders := true },
              eff1 ++ [Effect.issueHeaderReq s1.startHash s1.count])
      else some (s1, eff1)

/-- Body-range half of one `FetchFullBlockRangeFuture::poll` iteration:
insert the received bodies positionally, request the remainder when the map
is still incomplete, and re-issue the body request when the map is empty. -/
def bodyPhaseRange (s : RangeState) (res : Except Unit (PeerId × List Body)) :
    RangeState × List Effect :=
  let sA := { s with reqBodies := none }
  let r1 :=
    match res with
    | Except.ok (peer, bs) =>
        let s1 := insertBodies sA (bs.map (fun b => BodyResp.pendingValidation peer b))
        if isBodiesComplete s1 then (s1, ([] : List Effect))
        else
          let reqHashes := remainingBodiesHashes s1
          ({ s1 with reqBodies := some reqHashes }, [Effect.issueBodyReq reqHashes])
    | Except.error _ => (sA, ([] : List Effect))
  if r1.1.bodies.isEmpty then
    let hashes := remainingBodiesHashes r1.1
    if hashes.isEmpty then r1
    else ({ r1.1 with reqBodies := some hashes }, r1.2 ++ [Effect.issueBodyReq hashes])
  else r1

/-- One iteration of `FetchFullBlockRangeFuture::poll`: consume the completed
sub-request, re-issue work for whatever is still missing, then attempt to
assemble via `take_blocks`.  Returns `none` exactly when the code would
panic inside `on_headers_response`. -/
def rangeStep (s : RangeState) (e : RangeEvent) :
    Option (RangeState × List Effect × Option (List SealedBlock)) :=
  match e with
  | RangeEvent.headerRes res =>
      match headerPhaseRange s res with
      | none => none
      | some r2 =>
          let r3 := takeBlocks r2.1
          some (r3.1, r2.2 ++ r3.2.1, r3.2.2)
  | RangeEvent.bodyRes res =>
      let r2 := bodyPhaseRange s res
      let r3 := takeBlocks r2.1
      some (r3.1, r2.2 ++ r3.2.1, r3.2.2)

/-- Reachable suspension states of the range fetcher: a header-range event can
fire only while the header-range sub-request is in flight, a body-range event
only while a bodies sub-request is in flight, and only steps that did not
resolve (and did not panic) lead to a new suspension state. -/
inductive RReach (h : Hash) (n : Nat) : RangeState → Prop where
  | init : RReach h n (getFullBlockRange h n)
  | header (s s2 : RangeState) (res : Except Unit (PeerId × List Header))
      (effs : List Effect) :
      RReach h n s → s.reqHeaders = true →
      rangeStep s (RangeEvent.headerRes res) = some (s2, effs, none) → RReach h n s2
  | body (s s2 : RangeState) (res : Except Unit (PeerId × List Body))
      (effs : List Effect) :
      RReach h n s → (s.reqBodies).isSome = true →
      rangeStep s (RangeEvent.bodyRes res) = some (s2, effs, none) → RReach h n s2

/-! ### Lemmas about the association-list map -/

theorem mapInsert_of_not_mem {m : BodyMap} {k : SealedHeader} (v : BodyResp)
    (h : k ∉ mapKeys m) : mapInsert m k v = m ++ [(k, v)] := by
  induction m with
  | nil => rfl
  | cons e rest ih =>
      obtain ⟨k0, v0⟩ := e
      have h1 : ¬(k0 = k) := by
        intro he
        exact h (by simp [mapKeys, he])
      have h2 : k ∉ mapKeys rest := by
        intro he
        exact h (by simp [mapKeys] at he ⊢; exact Or.inr he)
      simp [mapInsert, h1, ih h2]

theorem mem_of_mem_mapInsert {m : BodyMap} {k a : SealedHeader} {v w : BodyResp}
    (h : (a, w) ∈ mapInsert m k v) : (a, w) ∈ m ∨ (a = k ∧ w = v) := by
  induction m with
  | nil =>
      simp [mapInsert] at h
      exact Or.inr h
  | cons e rest ih =>
      obtain ⟨k0, v0⟩ := e
      by_cases hk : k0 = k
      · subst hk
        simp [mapInsert] at h
        rcases h with h | h
        · exact Or.inr h
        · exact Or.inl (List.mem_cons_of_mem _ h)
      · simp [mapInsert, hk] at h
        rcases h with h | h
        · exact Or.inl (by simp [h])
        · rcases ih h with h2 | h2
          · exact Or.inl (List.mem_cons_of_mem _ h2)
          · exact Or.inr h2

theorem mapKeys_append (m1 m2 : BodyMap) :
    mapKeys (m1 ++ m2) = mapKeys m1 ++ mapKeys m2 :=
  List.map_append _ _ _

theorem mapRemove_of_not_mem {m : BodyMap} {k : SealedHeader}
    (h : k ∉ mapKeys m) : mapRemove m k = (none, m) := by
  induction m with
  | nil => rfl
  | cons e rest ih =>
      obtain ⟨k0, v0⟩ := e
      have h1 : ¬(k0 = k) := by
        intro he
        exact h (by simp [mapKeys, he])
      have h2 : k ∉ mapKeys rest := by
        intro he
        exact h (by simp [mapKeys] at he ⊢; exact Or.inr he)
      simp [mapRemove, h1, ih h2]

theorem mapRemove_fst_isSome {m : BodyMap} {k : SealedHeader}
    (h : k ∈ mapKeys m) : ((mapRemove m k).1).isSome = true := by
  induction m with
  | nil => simp [mapKeys] at h
  | cons e rest ih =>
      obtain ⟨k0, v0⟩ := e
      by_cases hk : k0 = k
      · simp [mapRemove, hk]
      · simp only [mapKeys, List.map_cons, List.mem_cons] at h
        rcases h with h | h
        · exact absurd h.symm hk
        · simp only [mapRemove, if_neg hk]
          exact ih h

theorem mapRemove_fst_mem {m : BodyMap} {k : SealedHeader} {v : BodyResp}
    (h : (mapRemove m k).1 = some v) : (k, v) ∈ m := by
  induction m with
  | nil => simp [mapRemove] at h
  | cons e rest ih =>
      obtain ⟨k0, v0⟩ := e
      by_cases hk : k0 = k
      · subst hk
        simp [mapRemove] at h
        simp [h]
      · simp only [mapRemove, if_neg hk] at h
        exact List.mem_cons_of_mem _ (ih h)

theorem mapRemove_snd_subset {m : BodyMap} {k : SealedHeader} :
    ∀ e ∈ (mapRemove m k).2, e ∈ m := by
  induction m with
  | nil => simp [mapRemove]
  | cons e0 rest ih =>
      obtain ⟨k0, v0⟩ := e0
      by_cases hk : k0 = k
      · intro e he
        simp only [mapRemove, if_pos hk] at he
        exact List.mem_cons_of_mem _ he
      · intro e he
        simp only [mapRemove, if_neg hk, List.mem_cons] at he
        rcases he with he | he
        · exact he ▸ List.mem_cons_self _ _
        · exact List.mem_cons_of_mem _ (ih e he)

theorem mapKeys_mapRemove_snd (m : BodyMap) (k : SealedHeader) :
    mapKeys (mapRemove m k).2 = (mapKeys m).erase k := by
  induction m with
  | nil => rfl
  | cons e rest ih =>
      obtain ⟨k0, v0⟩ := e
      by_cases hk : k0 = k
      · subst hk
        simp [mapRemove, mapKeys, List.erase_cons_head]
      · have hne : ¬(k0 == k) = true := by simpa using hk
        simp only [mapRemove, if_neg hk, mapKeys, List.map_cons]
        rw [List.erase_cons_tail hne]
        exact congrArg (k0 :: ·) ih

/-! ### Lemmas about the defensive sort -/

theorem insertDesc_perm (x : SealedHeader) (l : List SealedHeader) :
    (insertDesc x l).Perm (x :: l) := by
  induction l with
  | nil => exact List.Perm.refl _
  | cons y ys ih =>
      by_cases hxy : y.header.number < x.header.number
      · simp [insertDesc, hxy]
      · simp only [insertDesc, if_neg hxy]
        exact (ih.cons y).trans (List.Perm.swap x y ys)

theorem sortByNumberDesc_perm (l : List SealedHeader) :
    (sortByNumberDesc l).Perm l := by
  induction l with
  | nil => exact List.Perm.refl _
  | cons x xs ih =>
      exact (insertDesc_perm x (sortByNumberDesc xs)).trans (ih.cons x)

theorem sortByNumberDesc_length (l : List SealedHeader) :
    (sortByNumberDesc l).length = l.length :=
  (sortByNumberDesc_perm l).length_eq

/-! ### Lemmas about consensus header-range validation -/

/-- Relation between a parent and its direct child in a rising sequence. -/
def ascStep (a b : SealedHeader) : Prop :=
  b.header.parentHash = a.hash ∧ b.header.number = a.header.number + 1

/-- Relation between consecutive elements of a falling sequence: the earlier
element is the direct child of the later one. -/
def descStep (a b : SealedHeader) : Prop :=
  a.header.parentHash = b.hash ∧ a.header.number = b.header.number + 1

theorem validateHeaderRange_iff_chain (l : List SealedHeader) :
    validateHeaderRange l = true ↔ l.Chain' ascStep := by
  induction l with
  | nil => simp [validateHeaderRange]
  | cons a rest ih =>
      cases rest with
      | nil => simp [validateHeaderRange]
      | cons b rest2 =>
          rw [List.chain'_cons, ← ih]
          simp [validateHeaderRange, ascStep, Bool.and_assoc, and_assoc]

theorem chain_desc_of_validate_reverse {l : List SealedHeader}
    (h : validateHeaderRange l.reverse = true) : l.Chain' descStep := by
  have hc := (validateHeaderRange_iff_chain _).mp h
  have hf := List.chain'_reverse.mp hc
  exact hf.imp (fun a b hab => hab)

theorem nodup_of_chain_desc {l : List SealedHeader} (h : l.Chain' descStep) :
    l.Nodup := by
  have h2 : l.Chain' (fun a b => b.header.number < a.header.number) :=
    h.imp (fun a b hab => by obtain ⟨hp, hn⟩ := hab; omega)
  have : IsTrans SealedHeader (fun a b => b.header.number < a.header.number) :=
    ⟨fun _ _ _ hab hbc => Nat.lt_trans hbc hab⟩
  have hp := List.chain'_iff_pairwise.mp h2
  exact hp.imp (fun hab he => by subst he; exact absurd hab (lt_irrefl _))

/-! ### Specification of the assembly loop -/

/-- Property that every already-validated entry of a bodies map did pass body
validation against the header it is keyed by. -/
def ValidatedInv (m : BodyMap) : Prop :=
  ∀ k b, (k, BodyResp.validated b) ∈ m → validateBody k.header b = true

theorem takeBlocksLoop_spec (l : List SealedHeader) :
    ∀ acc : TBAcc,
      l.Nodup → (mapKeys acc.bodies).Perm l → ValidatedInv acc.bodies →
      ∃ nv np reps,
        takeBlocksLoop l acc =
          { bodies := [], pending := acc.pending ++ np, valid := acc.valid ++ nv,
            effs := acc.effs ++ reps,
            needsRetry := acc.needsRetry || !np.isEmpty } ∧
        (nv.map Prod.fst).Sublist l ∧
        (nv.map Prod.fst ++ np).Perm l ∧
        (∀ hb ∈ nv, validateBody hb.1.header hb.2 = true) ∧
        (∀ hdr ∈ np, ∃ p b, (hdr, BodyResp.pendingValidation p b) ∈ acc.bodies ∧
           validateBody hdr.header b = false) ∧
        (∀ e ∈ reps, Effect.isReport e = true) ∧
        (np = [] → reps = []) := by
  induction l with
  | nil =>
      intro acc hnd hperm hval
      have hb : acc.bodies = [] := by
        have h0 := hperm.eq_nil
        simpa [mapKeys] using h0
      refine ⟨[], [], [], ?_, by simp, by simp, by simp, by simp, by simp, fun _ => rfl⟩
      cases acc with
      | mk bodies pending valid effs needsRetry =>
          simp only at hb
          simp [takeBlocksLoop, hb]
  | cons h t ih =>
      intro acc hnd hperm hval
      obtain ⟨hh, hndt⟩ := List.nodup_cons.mp hnd
      have hmem : h ∈ mapKeys acc.bodies := hperm.symm.subset (List.mem_cons_self h t)
      obtain ⟨v, hv⟩ := Option.isSome_iff_exists.mp (mapRemove_fst_isSome hmem)
      have hpermt : (mapKeys (mapRemove acc.bodies h).2).Perm t := by
        rw [mapKeys_mapRemove_snd]
        have h2 := hperm.erase h
        rwa [List.erase_cons_head] at h2
      have hsub := @mapRemove_snd_subset acc.bodies h
      have hvalt : ValidatedInv (mapRemove acc.bodies h).2 :=
        fun k b hkb => hval k b (hsub _ hkb)
      have hvmem : (h, v) ∈ acc.bodies := mapRemove_fst_mem hv
      cases v with
      | validated b =>
          obtain ⟨nv2, np2, reps2, heq, hsubl, hperm2, hval2, hnp2, hreps2, hnr2⟩ :=
            ih { acc with bodies := (mapRemove acc.bodies h).2,
                          valid := acc.valid ++ [(h, b)] } hndt hpermt hvalt
          refine ⟨(h, b) :: nv2, np2, reps2, ?_, ?_, ?_, ?_, ?_, hreps2, hnr2⟩
          · simp only [takeBlocksLoop, hv]
            rw [heq]
            simp
          · simpa using List.Sublist.cons₂ h hsubl
          · simp only [List.map_cons, List.cons_append]
            exact hperm2.cons h
          · intro hb hmemnv
            rcases List.mem_cons.mp hmemnv with hc | hc
            · subst hc
              exact hval h b hvmem
            · exact hval2 hb hc
          · intro hdr hmemnp
            obtain ⟨p, b2, hin, hfail⟩ := hnp2 hdr hmemnp
            exact ⟨p, b2, hsub _ hin, hfail⟩
      | pendingValidation p b =>
          by_cases hvb : validateBody h.header b = true
          · obtain ⟨nv2, np2, reps2, heq, hsubl, hperm2, hval2, hnp2, hreps2, hnr2⟩ :=
              ih { acc with bodies := (mapRemove acc.bodies h).2,
                            valid := acc.valid ++ [(h, b)] } hndt hpermt hvalt
            refine ⟨(h, b) :: nv2, np2, reps2, ?_, ?_, ?_, ?_, ?_, hreps2, hnr2⟩
            · simp only [takeBlocksLoop, hv]
              rw [if_pos hvb, heq]
              simp
            · simpa using List.Sublist.cons₂ h hsubl
            · simp only [List.map_cons, List.cons_append]
              exact hperm2.cons h
            · intro hb hmemnv
              rcases List.mem_cons.mp hmemnv with hc | hc
              · subst hc
                exact hvb
              · exact hval2 hb hc
            · intro hdr hmemnp
              obtain ⟨p2, b2, hin, hfail⟩ := hnp2 hdr hmemnp
              exact ⟨p2, b2, hsub _ hin, hfail⟩
          · obtain ⟨nv2, np2, reps2, heq, hsubl, hperm2, hval2, hnp2, hreps2, hnr2⟩ :=
              ih { acc with bodies := (mapRemove acc.bodies h).2,
                            pending := acc.pending ++ [h],
                            effs := acc.effs ++ [Effect.reportBadPeer p],
                            needsRetry := true } hndt hpermt hvalt
            refine ⟨nv2, h :: np2, Effect.reportBadPeer p :: reps2, ?_, ?_, ?_, hval2,
              ?_, ?_, ?_⟩
            · simp only [takeBlocksLoop, hv]
              rw [if_neg hvb, heq]
              simp
            · exact List.Sublist.cons h hsubl
            · exact List.perm_middle.trans (hperm2.cons h)
            · intro hdr hmemnp
              rcases List.mem_cons.mp hmemnp with hc | hc
              · subst hc
                refine ⟨p, b, hvmem, ?_⟩
                simpa using hvb
              · obtain ⟨p2, b2, hin, hfail⟩ := hnp2 hdr hc
                exact ⟨p2, b2, hsub _ hin, hfail⟩
            · intro e he
              rcases List.mem_cons.mp he with hc | hc
              · subst hc
                rfl
              · exact hreps2 e hc
            · intro hc
              cases hc
theorem foldl_mapInsert_validated (nv : List SealedBlock) :
    ∀ m : BodyMap,
      (∀ hb ∈ nv, hb.1 ∉ mapKeys m) → (nv.map Prod.fst).Nodup →
      nv.foldl (fun m2 blk => mapInsert m2 blk.1 (BodyResp.validated blk.2)) m =
        m ++ nv.map (fun hb => (hb.1, BodyResp.validated hb.2)) := by
  induction nv with
  | nil => intro m _ _; simp
  | cons hb rest ih =>
      intro m hfresh hnd
      rw [List.map_cons] at hnd
      obtain ⟨h1, hnd2⟩ := List.nodup_cons.mp hnd
      have hins : mapInsert m hb.1 (BodyResp.validated hb.2) =
          m ++ [(hb.1, BodyResp.validated hb.2)] :=
        mapInsert_of_not_mem _ (hfresh hb (List.mem_cons_self _ _))
      have hfresh2 : ∀ hb2 ∈ rest,
          hb2.1 ∉ mapKeys (m ++ [(hb.1, BodyResp.validated hb.2)]) := by
        intro hb2 hmem
        rw [mapKeys_append]
        simp only [List.mem_append, not_or]
        refine ⟨hfresh hb2 (List.mem_cons_of_mem _ hmem), ?_⟩
        simp only [mapKeys, List.map_cons, List.map_nil, List.mem_singleton]
        intro he
        exact h1 (he ▸ List.mem_map_of_mem Prod.fst hmem)
      simp only [List.foldl_cons, hins]
      rw [ih _ hfresh2 hnd2]
      simp

/-! ### Invariants of the range fetcher -/

/-- Invariant relating the stored headers, pending queue, and bodies map of
the range fetcher, independent of the request flags. -/
structure CoreInv (h : Hash) (n : Nat) (s : RangeState) : Prop where
  startEq : s.startHash = h
  countEq : s.count = n
  hdrLen : ∀ hs, s.headers = some hs → hs.length = n
  hdrHead : ∀ hs, s.headers = some hs → (hs.map (fun x => x.hash)).head? = some h
  hdrChain : ∀ hs, s.headers = some hs → hs.Chain' descStep
  hdrSealed : ∀ hs, s.headers = some hs → ∀ x ∈ hs, x.hash = hashHeader x.header
  perm : ∀ hs, s.headers = some hs → (s.pendingHeaders ++ mapKeys s.bodies).Perm hs
  validated : ValidatedInv s.bodies

/-- Full invariant of the range fetcher at reachable suspension points. -/
structure RInv (h : Hash) (n : Nat) (s : RangeState) : Prop where
  core : CoreInv h n s
  reqHdr : s.reqHeaders = (s.headers).isNone
  preNone : s.headers = none →
    s.bodies = [] ∧ s.pendingHeaders = [] ∧ s.reqBodies = none

theorem takeBlocks_spec {h : Hash} {n : Nat} {s : RangeState} (inv : CoreInv h n s) :
    ((takeBlocks s).2.2 = none →
       CoreInv h n (takeBlocks s).1 ∧
       (takeBlocks s).1.reqHeaders = s.reqHeaders ∧
       (takeBlocks s).1.headers = s.headers ∧
       ((takeBlocks s).1.headers = none → (takeBlocks s).1 = s)) ∧
    (∀ blocks, (takeBlocks s).2.2 = some blocks →
       blocks.length = n ∧
       (blocks.map (fun blk => blk.1.hash)).head? = some h ∧
       blocks.Chain' (fun x y => x.1.header.number = y.1.header.number + 1) ∧
       (takeBlocks s).2.1 = ([] : List Effect)) := by
  by_cases hcomp : isBodiesComplete s = true
  · cases hhd : s.headers with
    | none =>
        have htb : takeBlocks s = (s, [], none) := by
          simp [takeBlocks, hcomp, hhd]
        rw [htb]
        exact ⟨fun _ => ⟨inv, rfl, hhd, fun _ => rfl⟩, fun blocks hblk => by cases hblk⟩
    | some hs =>
        have hlen : hs.length = n := inv.hdrLen hs hhd
        have hchain : hs.Chain' descStep := inv.hdrChain hs hhd
        have hnd : hs.Nodup := nodup_of_chain_desc hchain
        have hperm0 := inv.perm hs hhd
        have hlenb : s.bodies.length = s.count := by
          simpa [isBodiesComplete] using hcomp
        have hkeyslen : (mapKeys s.bodies).length = n := by
          simp only [mapKeys, List.length_map]
          rw [hlenb, inv.countEq]
        have hpendnil : s.pendingHeaders = [] := by
          have hl := hperm0.length_eq
          simp only [List.length_append, hkeyslen, hlen] at hl
          exact List.length_eq_zero.mp (by omega)
        have hkeysperm : (mapKeys s.bodies).Perm hs := by
          have h2 := hperm0
          rw [hpendnil] at h2
          simpa using h2
        obtain ⟨nv, np, reps, heq, hsubl, hperm2, hval2, hnp2, hreps2, hnr2⟩ :=
          takeBlocksLoop_spec hs
            { bodies := s.bodies, pending := s.pendingHeaders, valid := [],
              effs := [], needsRetry := false } hnd hkeysperm inv.validated
        simp only at heq
        rw [hpendnil] at heq
        simp only [List.nil_append] at heq
        by_cases hnp : np = []
        · subst hnp
          have hrepsnil : reps = [] := hnr2 rfl
          rw [hrepsnil] at heq
          have hfst : nv.map Prod.fst = hs := by
            refine hsubl.eq_of_length ?_
            have h2 := hperm2.length_eq
            simpa using h2
          have htb : takeBlocks s =
              ({ s with headers := none, bodies := [], pendingHeaders := [] },
               [], some nv) := by
            simp [takeBlocks, hcomp, hhd, hpendnil, heq]
          rw [htb]
          constructor
          · intro hcontra
            cases hcontra
          · intro blocks hblk
            have hbe : blocks = nv := by
              have h2 : nv = blocks := by simpa using hblk
              exact h2.symm
            subst hbe
            refine ⟨?_, ?_, ?_, rfl⟩
            · have h2 := congrArg List.length hfst
              simpa [hlen] using h2
            · have h2 : blocks.map (fun blk => blk.1.hash) =
                  hs.map (fun x => x.hash) := by
                rw [← hfst, List.map_map]
                rfl
              rw [h2]
              exact inv.hdrHead hs hhd
            · have hchain2 : (blocks.map Prod.fst).Chain'
                  (fun a b => a.header.number = b.header.number + 1) := by
                rw [hfst]
                exact hchain.imp (fun a b hab => hab.2)
              exact (List.chain'_map Prod.fst).mp hchain2
        · have hnpe : np.isEmpty = false := by
            cases np with
            | nil => exact absurd rfl hnp
            | cons a l => rfl
          have hndnv : (nv.map Prod.fst).Nodup := hsubl.nodup hnd
          have hfold : nv.foldl
              (fun m2 blk => mapInsert m2 blk.1 (BodyResp.validated blk.2)) [] =
              nv.map (fun hb => (hb.1, BodyResp.validated hb.2)) := by
            rw [foldl_mapInsert_validated nv [] (by simp [mapKeys]) hndnv]
            simp
          have htb : takeBlocks s =
              ({ s with
                 headers := some hs
                 bodies := nv.map (fun hb => (hb.1, BodyResp.validated hb.2))
                 pendingHeaders := np
                 reqBodies := some (np.map (fun x => x.hash)) },
               reps ++ [Effect.issueBodyReq (np.map (fun x => x.hash))], none) := by
            simp [takeBlocks, hcomp, hhd, hpendnil, heq, hnpe, hfold,
              remainingBodiesHashes]
          rw [htb]
          constructor
          · intro _
            refine ⟨?_, rfl, rfl, ?_⟩
            · refine ⟨inv.startEq, inv.countEq, ?_, ?_, ?_, ?_, ?_, ?_⟩
              · intro hs2 hh2
                cases hh2
                exact hlen
              · intro hs2 hh2
                cases hh2
                exact inv.hdrHead hs hhd
              · intro hs2 hh2
                cases hh2
                exact hchain
              · intro hs2 hh2
                cases hh2
                exact inv.hdrSealed hs hhd
              · intro hs2 hh2
                cases hh2
                simp only [mapKeys, List.map_map]
                have hkeq : np ++ nv.map (Prod.fst ∘ fun hb =>
                    (hb.1, BodyResp.validated hb.2)) = np ++ nv.map Prod.fst := by
                  rfl
                rw [hkeq]
                exact List.perm_append_comm.trans hperm2
              · intro k b hkb
                simp only [List.mem_map, Prod.mk.injEq] at hkb
                obtain ⟨hb, hmem, hk1, hk2⟩ := hkb
                have hb2 : b = hb.2 := by
                  cases hk2.symm
                  rfl
                rw [← hk1, hb2]
                exact hval2 hb hmem
            · intro hcontra
              cases hcontra
          · intro blocks hblk
            cases hblk
  · have htb : takeBlocks s = (s, [], none) := by
      simp [takeBlocks, hcomp]
    rw [htb]
    exact ⟨fun _ => ⟨inv, rfl, rfl, fun _ => rfl⟩, fun blocks hblk => by cases hblk⟩

/-! ### Lemmas about body insertion -/

theorem insertBody_fields (s : RangeState) (r : BodyResp) :
    (insertBody s r).startHash = s.startHash ∧
    (insertBody s r).count = s.count ∧
    (insertBody s r).reqHeaders = s.reqHeaders ∧
    (insertBody s r).reqBodies = s.reqBodies ∧
    (insertBody s r).headers = s.headers := by
  cases hp : s.pendingHeaders with
  | nil => simp [insertBody, hp]
  | cons hd rest => simp [insertBody, hp]

theorem insertBodies_fields (rs : List BodyResp) :
    ∀ s : RangeState,
      (insertBodies s rs).startHash = s.startHash ∧
      (insertBodies s rs).count = s.count ∧
      (insertBodies s rs).reqHeaders = s.reqHeaders ∧
      (insertBodies s rs).reqBodies = s.reqBodies ∧
      (insertBodies s rs).headers = s.headers := by
  induction rs with
  | nil => intro s; simp [insertBodies]
  | cons r rest ih =>
      intro s
      have h1 := insertBody_fields s r
      have h2 := ih (insertBody s r)
      simp only [insertBodies, List.foldl_cons] at h2 ⊢
      exact ⟨h2.1.trans h1.1, h2.2.1.trans h1.2.1, h2.2.2.1.trans h1.2.2.1,
        h2.2.2.2.1.trans h1.2.2.2.1, h2.2.2.2.2.trans h1.2.2.2.2⟩

theorem insertBody_mid {hs : List SealedHeader} {s : RangeState} {r : BodyResp}
    (hnd : hs.Nodup)
    (hpv : ∀ b, r ≠ BodyResp.validated b)
    (hperm : (s.pendingHeaders ++ mapKeys s.bodies).Perm hs)
    (hval : ValidatedInv s.bodies) :
    ((insertBody s r).pendingHeaders ++ mapKeys (insertBody s r).bodies).Perm hs ∧
    ValidatedInv (insertBody s r).bodies := by
  cases hp : s.pendingHeaders with
  | nil =>
      simp only [insertBody, hp]
      refine ⟨?_, hval⟩
      rw [hp] at hperm
      simpa using hperm
  | cons hd rest =>
      have hnd2 : (s.pendingHeaders ++ mapKeys s.bodies).Nodup :=
        (hperm.nodup_iff).mpr hnd
      rw [hp] at hnd2
      have hfresh : hd ∉ mapKeys s.bodies := by
        have h2 := List.disjoint_of_nodup_append hnd2
        exact h2 (List.mem_cons_self _ _)
      have hins : mapInsert s.bodies hd r = s.bodies ++ [(hd, r)] :=
        mapInsert_of_not_mem _ hfresh
      simp only [insertBody, hp, hins]
      constructor
      · rw [mapKeys_append]
        have hstep : (rest ++ (mapKeys s.bodies ++ mapKeys [(hd, r)])).Perm
            ((hd :: rest) ++ mapKeys s.bodies) := by
          simp only [mapKeys, List.map_cons, List.map_nil]
          rw [← List.append_assoc]
          exact List.perm_append_comm.trans (List.Perm.refl _)
        refine hstep.trans ?_
        rw [← hp]
        exact hperm
      · intro k b hkb
        rcases List.mem_append.mp hkb with h2 | h2
        · exact hval k b h2
        · simp only [List.mem_singleton, Prod.mk.injEq] at h2
          exact absurd h2.2.symm (hpv b)

theorem insertBodies_mid {hs : List SealedHeader} (hnd : hs.Nodup) (rs : List BodyResp)
    (hpv : ∀ r ∈ rs, ∀ b, r ≠ BodyResp.validated b) :
    ∀ s : RangeState,
      (s.pendingHeaders ++ mapKeys s.bodies).Perm hs → ValidatedInv s.bodies →
      ((insertBodies s rs).pendingHeaders ++ mapKeys (insertBodies s rs).bodies).Perm hs ∧
      ValidatedInv (insertBodies s rs).bodies := by
  induction rs with
  | nil => intro s hperm hval; exact ⟨hperm, hval⟩
  | cons r rest ih =>
      intro s hperm hval
      have h1 := insertBody_mid hnd (hpv r (List.mem_cons_self _ _)) hperm hval
      have h2 := ih (fun r2 hr2 => hpv r2 (List.mem_cons_of_mem _ hr2))
        (insertBody s r) h1.1 h1.2
      simpa only [insertBodies, List.foldl_cons] using h2

theorem insertBodies_entries (rs : List BodyResp) :
    ∀ (s : RangeState) (k : SealedHeader) (v : BodyResp),
      (k, v) ∈ (insertBodies s rs).bodies → (k, v) ∈ s.bodies ∨ v ∈ rs := by
  induction rs with
  | nil => intro s k v hv; exact Or.inl hv
  | cons r rest ih =>
      intro s k v hv
      rcases ih (insertBody s r) k v (by simpa [insertBodies] using hv) with h2 | h2
      · cases hp : s.pendingHeaders with
        | nil =>
            simp only [insertBody, hp] at h2
            exact Or.inl h2
        | cons hd rest2 =>
            simp only [insertBody, hp] at h2
            rcases mem_of_mem_mapInsert h2 with h3 | h3
            · exact Or.inl h3
            · exact Or.inr (h3.2 ▸ List.mem_cons_self _ _)
      · exact Or.inr (List.mem_cons_of_mem _ h2)

/-! ### Case analysis of the header-range acceptance -/

theorem onHeadersResponse_wrong_length {s : RangeState} {p : PeerId} {hdrs : List Header}
    (hlen : hdrs.length ≠ s.count) :
    onHeadersResponse s p hdrs = some (s, []) := by
  simp [onHeadersResponse, hlen]

theorem onHeadersResponse_panic {s : RangeState} {p : PeerId} {hdrs : List Header}
    (hlen : hdrs.length = s.count)
    (hnil : sortByNumberDesc (hdrs.map Header.sealSlow) = []) :
    onHeadersResponse s p hdrs = none := by
  simp [onHeadersResponse, hlen, hnil]

theorem onHeadersResponse_start_mismatch {s : RangeState} {p : PeerId}
    {hdrs : List Header} {h0 : SealedHeader} {t : List SealedHeader}
    (hlen : hdrs.length = s.count)
    (hsort : sortByNumberDesc (hdrs.map Header.sealSlow) = h0 :: t)
    (hne : h0.hash ≠ s.startHash) :
    onHeadersResponse s p hdrs = some (s, [Effect.reportBadPeer p]) := by
  simp [onHeadersResponse, hlen, hsort, hne]

theorem onHeadersResponse_validate_fail {s : RangeState} {p : PeerId}
    {hdrs : List Header} {h0 : SealedHeader} {t : List SealedHeader}
    (hlen : hdrs.length = s.count)
    (hsort : sortByNumberDesc (hdrs.map Header.sealSlow) = h0 :: t)
    (heq0 : h0.hash = s.startHash)
    (hvf : validateHeaderRange ((h0 :: t).reverse) = false) :
    onHeadersResponse s p hdrs = some (s, [Effect.reportBadPeer p]) := by
  rw [List.reverse_cons] at hvf
  simp [onHeadersResponse, hlen, hsort, heq0, hvf]

theorem onHeadersResponse_accept {s : RangeState} {p : PeerId}
    {hdrs : List Header} {h0 : SealedHeader} {t : List SealedHeader}
    (hlen : hdrs.length = s.count)
    (hsort : sortByNumberDesc (hdrs.map Header.sealSlow) = h0 :: t)
    (heq0 : h0.hash = s.startHash)
    (hvt : validateHeaderRange ((h0 :: t).reverse) = true)
    (hrb : s.reqBodies = none) :
    onHeadersResponse s p hdrs =
      some ({ s with
              pendingHeaders := h0 :: t
              reqBodies := some ((h0 :: t).map (fun x => x.hash))
              headers := some (h0 :: t) },
            [Effect.issueBodyReq ((h0 :: t).map (fun x => x.hash))]) := by
  rw [List.reverse_cons] at hvt
  simp [onHeadersResponse, hlen, hsort, heq0, hvt, hrb]

theorem onHeadersResponse_accept_started {s : RangeState} {p : PeerId}
    {hdrs : List Header} {h0 : SealedHeader} {t : List SealedHeader} {r : List Hash}
    (hlen : hdrs.length = s.count)
    (hsort : sortByNumberDesc (hdrs.map Header.sealSlow) = h0 :: t)
    (heq0 : h0.hash = s.startHash)
    (hvt : validateHeaderRange ((h0 :: t).reverse) = true)
    (hrb : s.reqBodies = some r) :
    onHeadersResponse s p hdrs =
      some ({ s with
              pendingHeaders := h0 :: t
              headers := some (h0 :: t) }, []) := by
  rw [List.reverse_cons] at hvt
  simp [onHeadersResponse, hlen, hsort, heq0, hvt, hrb]

/-! ### Evaluation of the header-range phase -/

theorem headerPhaseRange_error (s : RangeState) (u : Unit) (hhd : s.headers = none) :
    headerPhaseRange s (Except.error u) =
      some ({ s with reqHeaders := true },
            [Effect.issueHeaderReq s.startHash s.count]) := by
  simp [headerPhaseRange, hhd]

theorem headerPhaseRange_ok_wrong_length {s : RangeState} {p : PeerId}
    {hdrs : List Header} (hhd : s.headers = none) (hlen : hdrs.length ≠ s.count) :
    headerPhaseRange s (Except.ok (p, hdrs)) =
      some ({ s with reqHeaders := true },
            [Effect.issueHeaderReq s.startHash s.count]) := by
  simp [headerPhaseRange, onHeadersResponse, hlen, hhd]

theorem headerPhaseRange_ok_panic {s : RangeState} {p : PeerId} {hdrs : List Header}
    (hlen : hdrs.length = s.count)
    (hnil : sortByNumberDesc (hdrs.map Header.sealSlow) = []) :
    headerPhaseRange s (Except.ok (p, hdrs)) = none := by
  simp [headerPhaseRange, onHeadersResponse, hlen, hnil]

theorem headerPhaseRange_ok_start_mismatch {s : RangeState} {p : PeerId}
    {hdrs : List Header} {h0 : SealedHeader} {t : List SealedHeader}
    (hhd : s.headers = none) (hlen : hdrs.length = s.count)
    (hsort : sortByNumberDesc (hdrs.map Header.sealSlow) = h0 :: t)
    (hne : h0.hash ≠ s.startHash) :
    headerPhaseRange s (Except.ok (p, hdrs)) =
      some ({ s with reqHeaders := true },
            [Effect.reportBadPeer p, Effect.issueHeaderReq s.startHash s.count]) := by
  simp [headerPhaseRange, onHeadersResponse, hlen, hsort, hne, hhd]

theorem headerPhaseRange_ok_validate_fail {s : RangeState} {p : PeerId}
    {hdrs : List Header} {h0 : SealedHeader} {t : List SealedHeader}
    (hhd : s.headers = none) (hlen : hdrs.length = s.count)
    (hsort : sortByNumberDesc (hdrs.map Header.sealSlow) = h0 :: t)
    (heq0 : h0.hash = s.startHash)
    (hvf : validateHeaderRange ((h0 :: t).reverse) = false) :
    headerPhaseRange s (Except.ok (p, hdrs)) =
      some ({ s with reqHeaders := true },
            [Effect.reportBadPeer p, Effect.issueHeaderReq s.startHash s.count]) := by
  rw [List.reverse_cons] at hvf
  simp [headerPhaseRange, onHeadersResponse, hlen, hsort, heq0, hvf, hhd]

theorem headerPhaseRange_ok_accept {s : RangeState} {p : PeerId}
    {hdrs : List Header} {h0 : SealedHeader} {t : List SealedHeader}
    (hlen : hdrs.length = s.count)
    (hsort : sortByNumberDesc (hdrs.map Header.sealSlow) = h0 :: t)
    (heq0 : h0.hash = s.startHash)
    (hvt : validateHeaderRange ((h0 :: t).reverse) = true)
    (hrb : s.reqBodies = none) :
    headerPhaseRange s (Except.ok (p, hdrs)) =
      some ({ s with
              reqHeaders := false
              reqBodies := some ((h0 :: t).map (fun x => x.hash))
              headers := some (h0 :: t)
              pendingHeaders := h0 :: t },
            [Effect.issueBodyReq ((h0 :: t).map (fun x => x.hash))]) := by
  rw [List.reverse_cons] at hvt
  simp [headerPhaseRange, onHeadersResponse, hlen, hsort, heq0, hvt, hrb]

/-! ### Invariant preservation through the phases -/

theorem coreInv_set_reqBodies {h : Hash} {n : Nat} {s : RangeState}
    (inv : CoreInv h n s) (rb : Option (List Hash)) :
    CoreInv h n { s with reqBodies := rb } :=
  ⟨inv.startEq, inv.countEq, inv.hdrLen, inv.hdrHead, inv.hdrChain, inv.hdrSealed,
   inv.perm, inv.validated⟩

theorem setReqBodies_self {s : RangeState} {rb : Option (List Hash)}
    (h : s.reqBodies = rb) : { s with reqBodies := rb } = s := by
  cases s
  simp only at h
  rw [h]

theorem accept_rinv {h : Hash} {n : Nat} {s : RangeState} {hdrs : List Header}
    {h0 : SealedHeader} {t : List SealedHeader}
    (inv : RInv h n s) (hhd : s.headers = none)
    (hlen : hdrs.length = s.count)
    (hsort : sortByNumberDesc (hdrs.map Header.sealSlow) = h0 :: t)
    (heq0 : h0.hash = s.startHash)
    (hvt : validateHeaderRange ((h0 :: t).reverse) = true) :
    RInv h n { s with
      reqHeaders := false
      reqBodies := some ((h0 :: t).map (fun x => x.hash))
      headers := some (h0 :: t)
      pendingHeaders := h0 :: t } := by
  obtain ⟨hb0, hp0, hrb0⟩ := inv.preNone hhd
  have hlen2 : (h0 :: t).length = n := by
    rw [← hsort, sortByNumberDesc_length, List.length_map, hlen, inv.core.countEq]
  have hmemseal : ∀ x ∈ h0 :: t, x.hash = hashHeader x.header := by
    intro x hx
    rw [← hsort] at hx
    have hx2 := (sortByNumberDesc_perm _).subset hx
    obtain ⟨y, _, hy⟩ := List.mem_map.mp hx2
    rw [← hy]
    rfl
  refine ⟨⟨inv.core.startEq, inv.core.countEq, ?_, ?_, ?_, ?_, ?_, ?_⟩, rfl, ?_⟩
  · intro hs2 hh2
    cases hh2
    exact hlen2
  · intro hs2 hh2
    cases hh2
    simp only [List.map_cons, List.head?_cons]
    rw [heq0, inv.core.startEq]
  · intro hs2 hh2
    cases hh2
    exact chain_desc_of_validate_reverse hvt
  · intro hs2 hh2
    cases hh2
    exact hmemseal
  · intro hs2 hh2
    cases hh2
    simp only [hb0, mapKeys, List.map_nil, List.append_nil]
    exact List.Perm.refl _
  · intro k b hkb
    simp only [hb0] at hkb
    cases hkb
  · intro hcontra
    cases hcontra

theorem headerPhaseRange_rinv {h : Hash} {n : Nat} {s : RangeState}
    (inv : RInv h n s) (henb : s.reqHeaders = true)
    (res : Except Unit (PeerId × List Header)) :
    ∀ r2, headerPhaseRange s res = some r2 → RInv h n r2.1 := by
  have hhd : s.headers = none := by
    have h2 := inv.reqHdr
    rw [henb] at h2
    cases hx : s.headers with
    | none => rfl
    | some v => rw [hx] at h2; cases h2
  obtain ⟨hb0, hp0, hrb0⟩ := inv.preNone hhd
  have hsid : ({ s with reqHeaders := true } : RangeState) = s := by
    cases s
    simp only at henb
    rw [henb]
  have hreissue : RInv h n ({ s with reqHeaders := true } : RangeState) := by
    rw [hsid]
    exact inv
  cases res with
  | error u =>
      intro r2 hr2
      rw [headerPhaseRange_error s u hhd] at hr2
      cases Option.some.inj hr2
      exact hreissue
  | ok pr =>
      obtain ⟨p2, hdrs⟩ := pr
      intro r2 hr2
      by_cases hlen : hdrs.length = s.count
      · cases hsort : sortByNumberDesc (hdrs.map Header.sealSlow) with
        | nil =>
            rw [headerPhaseRange_ok_panic hlen hsort] at hr2
            cases hr2
        | cons h0 t =>
            by_cases hne : h0.hash = s.startHash
            · by_cases hv : validateHeaderRange ((h0 :: t).reverse) = true
              · rw [headerPhaseRange_ok_accept hlen hsort hne hv hrb0] at hr2
                cases Option.some.inj hr2
                exact accept_rinv inv hhd hlen hsort hne hv
              · have hv2 : validateHeaderRange ((h0 :: t).reverse) = false := by
                  simpa using hv
                rw [headerPhaseRange_ok_validate_fail hhd hlen hsort hne hv2] at hr2
                cases Option.some.inj hr2
                exact hreissue
            · rw [headerPhaseRange_ok_start_mismatch hhd hlen hsort hne] at hr2
              cases Option.some.inj hr2
              exact hreissue
      · rw [headerPhaseRange_ok_wrong_length hhd hlen] at hr2
        cases Option.some.inj hr2
        exact hreissue

theorem bodyPhaseRange_shape (s : RangeState) (res : Except Unit (PeerId × List Body)) :
    ∃ (rs : List BodyResp) (rb : Option (List Hash)),
      (∀ r ∈ rs, ∀ b, r ≠ BodyResp.validated b) ∧
      (bodyPhaseRange s res).1 =
        { insertBodies { s with reqBodies := none } rs with reqBodies := rb } := by
  cases res with
  | error u =>
      have hins : insertBodies { s with reqBodies := none } [] =
          ({ s with reqBodies := none } : RangeState) := rfl
      by_cases hemp : s.bodies.isEmpty = true
      · by_cases hne : (s.pendingHeaders.map (fun x => x.hash)).isEmpty = true
        · refine ⟨[], none, by simp, ?_⟩
          rw [hins]
          simp [bodyPhaseRange, remainingBodiesHashes, hemp, hne]
        · refine ⟨[], some (s.pendingHeaders.map (fun x => x.hash)), by simp, ?_⟩
          rw [hins]
          simp [bodyPhaseRange, remainingBodiesHashes, hemp, hne]
      · refine ⟨[], none, by simp, ?_⟩
        rw [hins]
        simp [bodyPhaseRange, hemp]
  | ok pr =>
      obtain ⟨p2, bs⟩ := pr
      have hpv : ∀ r ∈ bs.map (fun b => BodyResp.pendingValidation p2 b),
          ∀ b, r ≠ BodyResp.validated b := by
        intro r hr b
        obtain ⟨b2, _, hb2⟩ := List.mem_map.mp hr
        rw [← hb2]
        intro hcontra
        cases hcontra
      have hself : ({ insertBodies { s with reqBodies := none }
            (bs.map (fun b => BodyResp.pendingValidation p2 b)) with
          reqBodies := none } : RangeState) =
          insertBodies { s with reqBodies := none }
            (bs.map (fun b => BodyResp.pendingValidation p2 b)) :=
        setReqBodies_self (insertBodies_fields _ _).2.2.2.1
      by_cases hcomp : isBodiesComplete
          (insertBodies { s with reqBodies := none }
            (bs.map (fun b => BodyResp.pendingValidation p2 b))) = true
      · by_cases hemp : (insertBodies { s with reqBodies := none }
            (bs.map (fun b => BodyResp.pendingValidation p2 b))).bodies.isEmpty = true
        · by_cases hne : (remainingBodiesHashes (insertBodies { s with reqBodies := none }
              (bs.map (fun b => BodyResp.pendingValidation p2 b)))).isEmpty = true
          all_goals simp only [remainingBodiesHashes] at hne
          · refine ⟨bs.map (fun b => BodyResp.pendingValidation p2 b), none, hpv, ?_⟩
            simp [bodyPhaseRange, remainingBodiesHashes, hcomp, hemp, hne, hself]
          · refine ⟨bs.map (fun b => BodyResp.pendingValidation p2 b),
              some (remainingBodiesHashes (insertBodies { s with reqBodies := none }
                (bs.map (fun b => BodyResp.pendingValidation p2 b)))), hpv, ?_⟩
            simp [bodyPhaseRange, remainingBodiesHashes, hcomp, hemp, hne]
        · refine ⟨bs.map (fun b => BodyResp.pendingValidation p2 b), none, hpv, ?_⟩
          simp [bodyPhaseRange, remainingBodiesHashes, hcomp, hemp, hself]
      · by_cases hemp : (insertBodies { s with reqBodies := none }
            (bs.map (fun b => BodyResp.pendingValidation p2 b))).bodies.isEmpty = true
        · by_cases hne : (remainingBodiesHashes (insertBodies { s with reqBodies := none }
              (bs.map (fun b => BodyResp.pendingValidation p2 b)))).isEmpty = true
          all_goals simp only [remainingBodiesHashes] at hne
          · refine ⟨bs.map (fun b => BodyResp.pendingValidation p2 b),
              some (remainingBodiesHashes (insertBodies { s with reqBodies := none }
                (bs.map (fun b => BodyResp.pendingValidation p2 b)))), hpv, ?_⟩
            simp [bodyPhaseRange, remainingBodiesHashes, hcomp, hemp, hne]
          · refine ⟨bs.map (fun b => BodyResp.pendingValidation p2 b),
              some (remainingBodiesHashes (insertBodies { s with reqBodies := none }
                (bs.map (fun b => BodyResp.pendingValidation p2 b)))), hpv, ?_⟩
            simp [bodyPhaseRange, remainingBodiesHashes, hcomp, hemp, hne]
        · refine ⟨bs.map (fun b => BodyResp.pendingValidation p2 b),
            some (remainingBodiesHashes (insertBodies { s with reqBodies := none }
              (bs.map (fun b => BodyResp.pendingValidation p2 b)))), hpv, ?_⟩
          simp [bodyPhaseRange, remainingBodiesHashes, hcomp, hemp]

theorem bodyPhaseRange_rinv {h : Hash} {n : Nat} {s : RangeState}
    (inv : RInv h n s) (henb : (s.reqBodies).isSome = true)
    (res : Except Unit (PeerId × List Body)) :
    RInv h n (bodyPhaseRange s res).1 := by
  obtain ⟨hs, hhd⟩ : ∃ v, s.headers = some v := by
    cases hx : s.headers with
    | none =>
        obtain ⟨_, _, hrb⟩ := inv.preNone hx
        rw [hrb] at henb
        cases henb
    | some v => exact ⟨v, rfl⟩
  have hchain := inv.core.hdrChain hs hhd
  have hnd := nodup_of_chain_desc hchain
  obtain ⟨rs, rb, hpv, hX⟩ := bodyPhaseRange_shape s res
  rw [hX]
  have hfY := insertBodies_fields rs ({ s with reqBodies := none } : RangeState)
  have hmid := insertBodies_mid hnd rs hpv ({ s with reqBodies := none } : RangeState)
    (inv.core.perm hs hhd) inv.core.validated
  have hYhd : (insertBodies { s with reqBodies := none } rs).headers = some hs := by
    rw [hfY.2.2.2.2]
    exact hhd
  have hcoreY : CoreInv h n (insertBodies { s with reqBodies := none } rs) := by
    refine ⟨?_, ?_, ?_, ?_, ?_, ?_, ?_, hmid.2⟩
    · rw [hfY.1]
      exact inv.core.startEq
    · rw [hfY.2.1]
      exact inv.core.countEq
    · intro hs2 hh2
      rw [hYhd] at hh2
      cases Option.some.inj hh2
      exact inv.core.hdrLen hs hhd
    · intro hs2 hh2
      rw [hYhd] at hh2
      cases Option.some.inj hh2
      exact inv.core.hdrHead hs hhd
    · intro hs2 hh2
      rw [hYhd] at hh2
      cases Option.some.inj hh2
      exact hchain
    · intro hs2 hh2
      rw [hYhd] at hh2
      cases Option.some.inj hh2
      exact inv.core.hdrSealed hs hhd
    · intro hs2 hh2
      rw [hYhd] at hh2
      cases Option.some.inj hh2
      exact hmid.1
  refine ⟨coreInv_set_reqBodies hcoreY rb, ?_, ?_⟩
  · have h2 : ({ insertBodies { s with reqBodies := none } rs with
        reqBodies := rb } : RangeState).headers = some hs := hYhd
    rw [h2]
    show (insertBodies { s with reqBodies := none } rs).reqHeaders = _
    rw [hfY.2.2.1]
    have h3 := inv.reqHdr
    rw [hhd] at h3
    exact h3
  · intro hcontra
    have h2 : ({ insertBodies { s with reqBodies := none } rs with
        reqBodies := rb } : RangeState).headers = some hs := hYhd
    rw [h2] at hcontra
    cases hcontra

/-- Enabling condition of an event: the corresponding sub-request future must
be in flight for `FullBlockRangeRequest::poll` to yield its response. -/
def EnabledR (s : RangeState) : RangeEvent → Prop
  | RangeEvent.headerRes _ => s.reqHeaders = true
  | RangeEvent.bodyRes _ => (s.reqBodies).isSome = true

theorem rangeStep_spec {h : Hash} {n : Nat} {s : RangeState} {e : RangeEvent}
    {out : RangeState × List Effect × Option (List SealedBlock)}
    (inv : RInv h n s) (henb : EnabledR s e) (hstep : rangeStep s e = some out) :
    (out.2.2 = none → RInv h n out.1) ∧
    (∀ blocks, out.2.2 = some blocks →
       blocks.length = n ∧
       (blocks.map (fun blk => blk.1.hash)).head? = some h ∧
       blocks.Chain' (fun x y => x.1.header.number = y.1.header.number + 1)) := by
  cases e with
  | headerRes res =>
      cases hph : headerPhaseRange s res with
      | none =>
          rw [rangeStep, hph] at hstep
          cases hstep
      | some r2 =>
          rw [rangeStep, hph] at hstep
          have hout : out = ((takeBlocks r2.1).1, r2.2 ++ (takeBlocks r2.1).2.1,
              (takeBlocks r2.1).2.2) := (Option.some.inj hstep).symm
          subst hout
          have hr2 := headerPhaseRange_rinv inv henb res r2 hph
          have hts := takeBlocks_spec hr2.core
          constructor
          · intro hout2
            obtain ⟨hcore, hreq, hhds, hunch⟩ := hts.1 hout2
            refine ⟨hcore, ?_, ?_⟩
            · rw [hreq, hhds]
              exact hr2.reqHdr
            · intro hnone
              rw [hunch (by exact hnone)]
              rw [hhds] at hnone
              exact hr2.preNone hnone
          · intro blocks hblk
            obtain ⟨h1, h2, h3, _⟩ := hts.2 blocks hblk
            exact ⟨h1, h2, h3⟩
  | bodyRes res =>
      rw [rangeStep] at hstep
      have hout : out = ((takeBlocks (bodyPhaseRange s res).1).1,
          (bodyPhaseRange s res).2 ++ (takeBlocks (bodyPhaseRange s res).1).2.1,
          (takeBlocks (bodyPhaseRange s res).1).2.2) := (Option.some.inj hstep).symm
      subst hout
      have hr2 := bodyPhaseRange_rinv inv henb res
      have hts := takeBlocks_spec hr2.core
      constructor
      · intro hout2
        obtain ⟨hcore, hreq, hhds, hunch⟩ := hts.1 hout2
        refine ⟨hcore, ?_, ?_⟩
        · rw [hreq, hhds]
          exact hr2.reqHdr
        · intro hnone
          rw [hunch (by exact hnone)]
          rw [hhds] at hnone
          exact hr2.preNone hnone
      · intro blocks hblk
        obtain ⟨h1, h2, h3, _⟩ := hts.2 blocks hblk
        exact ⟨h1, h2, h3⟩

theorem reach_rinv {h : Hash} {n : Nat} {s : RangeState} (hr : RReach h n s) :
    RInv h n s := by
  induction hr with
  | init =>
      refine ⟨⟨rfl, rfl, ?_, ?_, ?_, ?_, ?_, ?_⟩, rfl, fun _ => ⟨rfl, rfl, rfl⟩⟩
      · intro hs2 hh2
        cases hh2
      · intro hs2 hh2
        cases hh2
      · intro hs2 hh2
        cases hh2
      · intro hs2 hh2
        cases hh2
      · intro hs2 hh2
        cases hh2
      · intro k b hkb
        cases hkb
  | header s s2 res effs hr2 henb hstep ih =>
      exact (rangeStep_spec (e := RangeEvent.headerRes res) ih henb hstep).1 rfl
  | body s s2 res effs hr2 henb hstep ih =>
      exact (rangeStep_spec (e := RangeEvent.bodyRes res) ih henb hstep).1 rfl

/-! ### Invariants of the single-block fetcher -/

/-- Invariant of the single-block fetcher at reachable suspension points. -/
structure SInv (h : Hash) (s : SingleState) : Prop where
  hashEq : s.hash = h
  reqH : s.reqHeader = (s.header).isNone
  reqB : s.reqBody = (s.body).isNone
  hdrHash : ∀ sh, s.header = some sh → sh.hash = h

theorem headerPhaseSingle_sinv {h : Hash} {s : SingleState}
    (inv : SInv h s) (res : Except Unit (PeerId × Option Header)) :
    SInv h (headerPhaseSingle s res).1 := by
  have hreissue : s.header = none → SInv h ({ s with reqHeader := true } : SingleState) :=
    fun hhd => ⟨inv.hashEq, by simp [hhd], inv.reqB, inv.hdrHash⟩
  have hkeep : ∀ sh, s.header = some sh → SInv h ({ s with reqHeader := false } : SingleState) :=
    fun sh hhd => ⟨inv.hashEq, by simp [hhd], inv.reqB, inv.hdrHash⟩
  cases res with
  | error u =>
      cases hhd : s.header with
      | none =>
          have heq : headerPhaseSingle s (Except.error u) =
              ({ s with reqHeader := true }, [Effect.issueSingleHeaderReq s.hash]) := by
            simp [headerPhaseSingle, hhd]
          rw [heq]
          exact hreissue hhd
      | some sh =>
          have heq : headerPhaseSingle s (Except.error u) =
              ({ s with reqHeader := false }, []) := by
            simp [headerPhaseSingle, hhd]
          rw [heq]
          exact hkeep sh hhd
  | ok pr =>
      obtain ⟨p2, mh⟩ := pr
      cases mh with
      | none =>
          cases hhd : s.header with
          | none =>
              have heq : headerPhaseSingle s (Except.ok (p2, none)) =
                  ({ s with reqHeader := true }, [Effect.issueSingleHeaderReq s.hash]) := by
                simp [headerPhaseSingle, onHeaderResponseSingle, hhd]
              rw [heq]
              exact hreissue hhd
          | some sh =>
              have heq : headerPhaseSingle s (Except.ok (p2, none)) =
                  ({ s with reqHeader := false }, []) := by
                simp [headerPhaseSingle, onHeaderResponseSingle, hhd]
              rw [heq]
              exact hkeep sh hhd
      | some hd =>
          by_cases hsh : (Header.sealSlow hd).hash = s.hash
          · have heq : headerPhaseSingle s (Except.ok (p2, some hd)) =
                ({ s with reqHeader := false, header := some (Header.sealSlow hd) }, []) := by
              simp [headerPhaseSingle, onHeaderResponseSingle, hsh]
            rw [heq]
            refine ⟨inv.hashEq, by simp, inv.reqB, ?_⟩
            intro sh2 hsh2
            cases Option.some.inj hsh2
            exact hsh.trans inv.hashEq
          · cases hhd : s.header with
            | none =>
                have heq : headerPhaseSingle s (Except.ok (p2, some hd)) =
                    ({ s with reqHeader := true },
                     [Effect.reportBadPeer p2, Effect.issueSingleHeaderReq s.hash]) := by
                  simp [headerPhaseSingle, onHeaderResponseSingle, hsh, hhd]
                rw [heq]
                exact hreissue hhd
            | some sh =>
                have heq : headerPhaseSingle s (Except.ok (p2, some hd)) =
                    ({ s with reqHeader := false }, [Effect.reportBadPeer p2]) := by
                  simp [headerPhaseSingle, onHeaderResponseSingle, hsh, hhd]
                rw [heq]
                exact hkeep sh hhd

theorem bodyPhaseSingle_sinv {h : Hash} {s : SingleState}
    (inv : SInv h s) (res : Except Unit (PeerId × Option Body)) :
    SInv h (bodyPhaseSingle s res).1 := by
  have hreissue : s.body = none → SInv h ({ s with reqBody := true } : SingleState) :=
    fun hbd => ⟨inv.hashEq, inv.reqH, by simp [hbd], inv.hdrHash⟩
  have hkeep : ∀ r, s.body = some r → SInv h ({ s with reqBody := false } : SingleState) :=
    fun r hbd => ⟨inv.hashEq, inv.reqH, by simp [hbd], inv.hdrHash⟩
  have hnores : SInv h (bodyPhaseSingle s res).1 →
      SInv h (bodyPhaseSingle s res).1 := id
  cases res with
  | error u =>
      cases hbd : s.body with
      | none =>
          have heq : bodyPhaseSingle s (Except.error u) =
              ({ s with reqBody := true }, [Effect.issueSingleBodyReq s.hash]) := by
            simp [bodyPhaseSingle, hbd]
          rw [heq]
          exact hreissue hbd
      | some r =>
          have heq : bodyPhaseSingle s (Except.error u) =
              ({ s with reqBody := false }, []) := by
            simp [bodyPhaseSingle, hbd]
          rw [heq]
          exact hkeep r hbd
  | ok pr =>
      obtain ⟨p2, mb⟩ := pr
      cases mb with
      | none =>
          cases hbd : s.body with
          | none =>
              have heq : bodyPhaseSingle s (Except.ok (p2, none)) =
                  ({ s with reqBody := true }, [Effect.issueSingleBodyReq s.hash]) := by
                simp [bodyPhaseSingle, hbd]
              rw [heq]
              exact hreissue hbd
          | some r =>
              have heq : bodyPhaseSingle s (Except.ok (p2, none)) =
                  ({ s with reqBody := false }, []) := by
                simp [bodyPhaseSingle, hbd]
              rw [heq]
              exact hkeep r hbd
      | some b =>
          cases hhd : s.header with
          | some sh =>
              by_cases hv : validateBody sh.header b = true
              · have heq : bodyPhaseSingle s (Except.ok (p2, some b)) =
                    ({ s with reqBody := false, body := some (BodyResp.validated b) },
                     []) := by
                  simp [bodyPhaseSingle, onBlockResponse, hhd, hv]
                rw [heq]
                exact ⟨inv.hashEq, inv.reqH, by simp, inv.hdrHash⟩
              · cases hbd : s.body with
                | none =>
                    have heq : bodyPhaseSingle s (Except.ok (p2, some b)) =
                        ({ s with reqBody := true },
                         [Effect.reportBadPeer p2, Effect.issueSingleBodyReq s.hash]) := by
                      simp [bodyPhaseSingle, onBlockResponse, hhd, hv, hbd]
                    rw [heq]
                    exact hreissue hbd
                | some r =>
                    have heq : bodyPhaseSingle s (Except.ok (p2, some b)) =
                        ({ s with reqBody := false }, [Effect.reportBadPeer p2]) := by
                      simp [bodyPhaseSingle, onBlockResponse, hhd, hv, hbd]
                    rw [heq]
                    exact hkeep r hbd
          | none =>
              have heq : bodyPhaseSingle s (Except.ok (p2, some b)) =
                  ({ s with
                     reqBody := false
                     body := some (BodyResp.pendingValidation p2 b) }, []) := by
                simp [bodyPhaseSingle, onBlockResponse, hhd]
              rw [heq]
              exact ⟨inv.hashEq, inv.reqH, by simp, inv.hdrHash⟩

theorem takeBlock_spec {h : Hash} {s : SingleState} (inv : SInv h s) :
    ((takeBlock s).2.2 = none → SInv h (takeBlock s).1) ∧
    (∀ blk, (takeBlock s).2.2 = some blk → blk.1.hash = h) := by
  cases hhd : s.header with
  | none =>
      have heq : takeBlock s = (s, [], none) := by
        simp [takeBlock, hhd]
      rw [heq]
      exact ⟨fun _ => inv, fun blk hblk => by cases hblk⟩
  | some sh =>
      cases hbd : s.body with
      | none =>
          have heq : takeBlock s = (s, [], none) := by
            simp [takeBlock, hhd, hbd]
          rw [heq]
          exact ⟨fun _ => inv, fun blk hblk => by cases hblk⟩
      | some resp =>
          cases resp with
          | validated b =>
              have heq : takeBlock s =
                  ({ s with header := none, body := none }, [], some (sh, b)) := by
                simp [takeBlock, hhd, hbd]
              rw [heq]
              refine ⟨fun hc => (nomatch hc), ?_⟩
              intro blk hblk
              cases Option.some.inj hblk
              exact inv.hdrHash sh hhd
          | pendingValidation p b =>
              by_cases hv : validateBody sh.header b = true
              · have heq : takeBlock s =
                    ({ s with header := none, body := none }, [], some (sh, b)) := by
                  simp [takeBlock, hhd, hbd, hv]
                rw [heq]
                refine ⟨fun hc => (nomatch hc), ?_⟩
                intro blk hblk
                cases Option.some.inj hblk
                exact inv.hdrHash sh hhd
              · have heq : takeBlock s =
                    ({ s with body := none, reqBody := true },
                     [Effect.reportBadPeer p, Effect.issueSingleBodyReq s.hash], none) := by
                  simp [takeBlock, hhd, hbd, hv]
                rw [heq]
                refine ⟨fun _ => ?_, fun blk hblk => by cases hblk⟩
                refine ⟨inv.hashEq, ?_, by simp, inv.hdrHash⟩
                have h2 := inv.reqH
                rw [hhd] at h2
                simpa [hhd] using h2

theorem singleStep_spec {h : Hash} {s : SingleState} {e : SingleEvent}
    (inv : SInv h s) :
    ((singleStep s e).2.2 = none → SInv h (singleStep s e).1) ∧
    (∀ blk, (singleStep s e).2.2 = some blk → blk.1.hash = h) := by
  cases e with
  | headerRes res =>
      have hph := headerPhaseSingle_sinv inv res
      have hts := takeBlock_spec hph
      exact ⟨fun hc => hts.1 hc, fun blk hblk => hts.2 blk hblk⟩
  | bodyRes res =>
      have hph := bodyPhaseSingle_sinv inv res
      have hts := takeBlock_spec hph
      exact ⟨fun hc => hts.1 hc, fun blk hblk => hts.2 blk hblk⟩

theorem sreach_sinv {h : Hash} {s : SingleState} (hr : SReach h s) : SInv h s := by
  induction hr with
  | init =>
      exact ⟨rfl, rfl, rfl, fun sh hsh => by cases hsh⟩
  | header s s2 res effs hr2 henb hstep ih =>
      have h2 := (singleStep_spec (e := SingleEvent.headerRes res) ih).1
      rw [hstep] at h2
      exact h2 rfl
  | body s s2 res effs hr2 henb hstep ih =>
      have h2 := (singleStep_spec (e := SingleEvent.bodyRes res) ih).1
      rw [hstep] at h2
      exact h2 rfl

/-! ### Positional pairing of a complete bodies response -/

theorem insertBodies_zip (ph : List SealedHeader) :
    ∀ (rs : List BodyResp) (s : RangeState),
      s.pendingHeaders = ph → rs.length = ph.length →
      (∀ x ∈ ph, x ∉ mapKeys s.bodies) → ph.Nodup →
      insertBodies s rs =
        { s with pendingHeaders := [], bodies := s.bodies ++ ph.zip rs } := by
  induction ph with
  | nil =>
      intro rs s hp hlen _ _
      have hrs : rs = [] := List.length_eq_zero.mp hlen
      subst hrs
      have heq : insertBodies s [] = s := rfl
      rw [heq]
      cases s
      simp only at hp
      simp [hp]
  | cons hd rest ih =>
      intro rs s hp hlen hfresh hnd
      cases rs with
      | nil => simp at hlen
      | cons r rrest =>
          obtain ⟨h1, hnd2⟩ := List.nodup_cons.mp hnd
          have hins : mapInsert s.bodies hd r = s.bodies ++ [(hd, r)] :=
            mapInsert_of_not_mem _ (hfresh hd (List.mem_cons_self _ _))
          have hstep : insertBody s r =
              { s with pendingHeaders := rest, bodies := s.bodies ++ [(hd, r)] } := by
            simp [insertBody, hp, hins]
          have hchain : insertBodies s (r :: rrest) =
              insertBodies { s with
                             pendingHeaders := rest
                             bodies := s.bodies ++ [(hd, r)] } rrest := by
            simp only [insertBodies, List.foldl_cons, hstep]
          rw [hchain]
          rw [ih rrest _ rfl (by simpa using hlen) ?fresh hnd2]
          · simp
          case fresh =>
              intro x hx
              show x ∉ mapKeys (s.bodies ++ [(hd, r)])
              rw [mapKeys_append]
              simp only [List.mem_append, not_or]
              refine ⟨hfresh x (List.mem_cons_of_mem _ hx), ?_⟩
              simp only [mapKeys, List.map_cons, List.map_nil, List.mem_singleton]
              intro he
              exact h1 (he ▸ hx)

/-! ### Injectivity of the modelled seal -/

theorem hashHeader_inj {a b : Header} (h : hashHeader a = hashHeader b) : a = b := by
  unfold hashHeader at h
  obtain ⟨h1, h2⟩ := Nat.pair_eq_pair.mp h
  obtain ⟨h3, h4⟩ := Nat.pair_eq_pair.mp h2
  cases a
  cases b
  simp only at h1 h3 h4
  rw [h1, h3, h4]

/-! ### Concrete chain and reachable states used by the witnesses -/

/-- Example genesis header. -/
def hdrA : Header := { parentHash := 0, number := 0, txRoot := 0 }

/-- Example direct child of `hdrA`. -/
def hdrB : Header := { parentHash := hashHeader hdrA, number := 1, txRoot := 0 }

/-- Example body matching both example headers. -/
def bodyA : Body := { txRoot := 0 }

/-- Example body failing validation against both example headers. -/
def bodyBad : Body := { txRoot := 1 }

/-- Range fetcher for `(hash hdrA, 1)` after accepting the header range. -/
def stR1 : RangeState :=
  { startHash := hashHeader hdrA, count := 1, reqHeaders := false,
    reqBodies := some [hashHeader hdrA], headers := some [Header.sealSlow hdrA],
    pendingHeaders := [Header.sealSlow hdrA], bodies := [] }

theorem stR1_reach : RReach (hashHeader hdrA) 1 stR1 :=
  RReach.header (getFullBlockRange (hashHeader hdrA) 1) stR1
    (Except.ok (7, [hdrA])) [Effect.issueBodyReq [hashHeader hdrA]]
    RReach.init rfl (by decide)

/-- Range fetcher for `(hash hdrB, 2)` after accepting the header range. -/
def stR2a : RangeState :=
  { startHash := hashHeader hdrB, count := 2, reqHeaders := false,
    reqBodies := some [hashHeader hdrB, hashHeader hdrA],
    headers := some [Header.sealSlow hdrB, Header.sealSlow hdrA],
    pendingHeaders := [Header.sealSlow hdrB, Header.sealSlow hdrA], bodies := [] }

theorem stR2a_reach : RReach (hashHeader hdrB) 2 stR2a :=
  RReach.header (getFullBlockRange (hashHeader hdrB) 2) stR2a
    (Except.ok (7, [hdrA, hdrB]))
    [Effect.issueBodyReq [hashHeader hdrB, hashHeader hdrA]]
    RReach.init rfl (by decide)

/-- Range fetcher for `(hash hdrB, 2)` after one body arrived from peer 8. -/
def stR2b : RangeState :=
  { startHash := hashHeader hdrB, count := 2, reqHeaders := false,
    reqBodies := some [hashHeader hdrA],
    headers := some [Header.sealSlow hdrB, Header.sealSlow hdrA],
    pendingHeaders := [Header.sealSlow hdrA],
    bodies := [(Header.sealSlow hdrB, BodyResp.pendingValidation 8 bodyA)] }

theorem stR2b_reach : RReach (hashHeader hdrB) 2 stR2b :=
  RReach.body stR2a stR2b (Except.ok (8, [bodyA]))
    [Effect.issueBodyReq [hashHeader hdrA]] stR2a_reach (by decide) (by decide)

/-- Range fetcher for `(hash hdrB, 2)` after a complete bodies response whose
second body failed validation: the first block's work is preserved as a
`Validated` entry while the failing header is pending again. -/
def stR2d : RangeState :=
  { startHash := hashHeader hdrB, count := 2, reqHeaders := false,
    reqBodies := some [hashHeader hdrA],
    headers := some [Header.sealSlow hdrB, Header.sealSlow hdrA],
    pendingHeaders := [Header.sealSlow hdrA],
    bodies := [(Header.sealSlow hdrB, BodyResp.validated bodyA)] }

theorem stR2d_reach : RReach (hashHeader hdrB) 2 stR2d :=
  RReach.body stR2a stR2d (Except.ok (8, [bodyA, bodyBad]))
    [Effect.reportBadPeer 8, Effect.issueBodyReq [hashHeader hdrA]]
    stR2a_reach (by decide) (by decide)

/-- Single-block fetcher for `hash hdrA` after the header arrived. -/
def stS1 : SingleState :=
  { hash := hashHeader hdrA, reqHeader := false, reqBody := true,
    header := some (Header.sealSlow hdrA), body := none }

theorem stS1_reach : SReach (hashHeader hdrA) stS1 :=
  SReach.header (getFullBlock (hashHeader hdrA)) stS1
    (Except.ok (7, some hdrA)) [] SReach.init rfl (by decide)

/-! ### Claim theorems -/

/-- C1: for every execution of `get_full_block_range(hash, count)` with
`count ≥ 1` that resolves, the resolved vector has length exactly `count`,
its first element's header hash equals the requested hash, and it is ordered
by descending block number with consecutive block numbers strictly
decrementing by one. -/
theorem c1_range_resolution {h : Hash} {n : Nat} {s s2 : RangeState}
    {e : RangeEvent} {effs : List Effect} {blocks : List SealedBlock}
    (hn : 1 ≤ n) (hr : RReach h n s) (henb : EnabledR s e)
    (hstep : rangeStep s e = some (s2, effs, some blocks)) :
    blocks.length = n ∧
    (blocks.map (fun blk => blk.1.hash)).head? = some h ∧
    blocks.Chain' (fun x y => x.1.header.number = y.1.header.number + 1) :=
  (rangeStep_spec (reach_rinv hr) henb hstep).2 blocks rfl

theorem c1_range_resolution_witness :
    ([(Header.sealSlow hdrA, bodyA)] : List SealedBlock).length = 1 ∧
    (([(Header.sealSlow hdrA, bodyA)] : List SealedBlock).map
      (fun blk => blk.1.hash)).head? = some (hashHeader hdrA) ∧
    ([(Header.sealSlow hdrA, bodyA)] : List SealedBlock).Chain'
      (fun x y => x.1.header.number = y.1.header.number + 1) :=
  @c1_range_resolution (hashHeader hdrA) 1 stR1
    { startHash := hashHeader hdrA, count := 1, reqHeaders := false,
      reqBodies := none, headers := none, pendingHeaders := [], bodies := [] }
    (RangeEvent.bodyRes (Except.ok (8, [bodyA]))) []
    [(Header.sealSlow hdrA, bodyA)]
    (by decide) stR1_reach (show (stR1.reqBodies).isSome = true by decide) (by decide)

/-- C2: every resolution of the single-block fetcher yields a block whose
header hash equals the requested hash; a received header is stored only when
its recomputed seal equals the requested hash, and otherwise the peer is
reported and the header slot is left unchanged. -/
theorem c2_single_identity :
    (∀ (h : Hash) (s : SingleState) (e : SingleEvent) (s2 : SingleState)
       (effs : List Effect) (blk : SealedBlock),
       SReach h s → singleStep s e = (s2, effs, some blk) → blk.1.hash = h) ∧
    (∀ (s : SingleState) (p : PeerId) (hd : Header),
       (Header.sealSlow hd).hash ≠ s.hash →
       onHeaderResponseSingle s p (some hd) = (s, [Effect.reportBadPeer p])) ∧
    (∀ (s : SingleState) (p : PeerId) (hd : Header),
       (Header.sealSlow hd).hash = s.hash →
       onHeaderResponseSingle s p (some hd) =
         ({ s with header := some (Header.sealSlow hd) }, [])) := by
  refine ⟨?_, ?_, ?_⟩
  · intro h s e s2 effs blk hr hstep
    have h2 := (singleStep_spec (e := e) (sreach_sinv hr)).2
    rw [hstep] at h2
    exact h2 blk rfl
  · intro s p hd hne
    simp [onHeaderResponseSingle, hne]
  · intro s p hd heq
    simp [onHeaderResponseSingle, heq]

theorem c2_single_identity_witness :
    (Header.sealSlow hdrA, bodyA).1.hash = hashHeader hdrA :=
  c2_single_identity.1 (hashHeader hdrA) stS1
    (SingleEvent.bodyRes (Except.ok (9, some bodyA)))
    { hash := hashHeader hdrA, reqHeader := false, reqBody := false,
      header := none, body := none }
    [] (Header.sealSlow hdrA, bodyA) stS1_reach (by decide)

/-- C7: at every reachable suspension point of the range fetcher with an
accepted header range, the set of hashes of the pending headers equals the
set of hashes of the stored header range minus the set of header hashes
holding an entry in the bodies map. -/
theorem c7_pending_set_invariant {h : Hash} {n : Nat} {s : RangeState}
    {hs : List SealedHeader} (hr : RReach h n s) (hh : s.headers = some hs)
    (x : Hash) :
    x ∈ s.pendingHeaders.map (fun y => y.hash) ↔
      (x ∈ hs.map (fun y => y.hash) ∧
       x ∉ (mapKeys s.bodies).map (fun y => y.hash)) := by
  have inv := reach_rinv hr
  have hperm := inv.core.perm hs hh
  have hchain := inv.core.hdrChain hs hh
  have hnd := nodup_of_chain_desc hchain
  have hsealed := inv.core.hdrSealed hs hh
  have hinj : ∀ a ∈ hs, ∀ b ∈ hs, a.hash = b.hash → a = b := by
    intro a ha b hb hab
    have h1 := hsealed a ha
    have h2 := hsealed b hb
    have h3 : a.header = b.header := hashHeader_inj (by rw [← h1, ← h2, hab])
    cases a
    cases b
    simp only at h1 h2 h3 hab
    rw [h3, hab]
  have hnd2 : (s.pendingHeaders ++ mapKeys s.bodies).Nodup :=
    (hperm.nodup_iff).mpr hnd
  have hdisj := List.disjoint_of_nodup_append hnd2
  constructor
  · intro hx
    obtain ⟨a, ha, hax⟩ := List.mem_map.mp hx
    have hahs : a ∈ hs := hperm.subset (List.mem_append.mpr (Or.inl ha))
    refine ⟨List.mem_map.mpr ⟨a, hahs, hax⟩, ?_⟩
    intro hx2
    obtain ⟨b, hb, hbx⟩ := List.mem_map.mp hx2
    have hbhs : b ∈ hs := hperm.subset (List.mem_append.mpr (Or.inr hb))
    have hab : a = b := hinj a hahs b hbhs (by rw [hax, hbx])
    exact hdisj ha (hab ▸ hb)
  · intro hx
    obtain ⟨a, ha, hax⟩ := List.mem_map.mp hx.1
    have ha2 : a ∈ s.pendingHeaders ++ mapKeys s.bodies := hperm.symm.subset ha
    rcases List.mem_append.mp ha2 with h2 | h2
    · exact List.mem_map.mpr ⟨a, h2, hax⟩
    · exact absurd (List.mem_map.mpr ⟨a, h2, hax⟩) hx.2

theorem c7_pending_set_invariant_witness :
    hashHeader hdrA ∈ stR2b.pendingHeaders.map (fun y => y.hash) ↔
      (hashHeader hdrA ∈
        [Header.sealSlow hdrB, Header.sealSlow hdrA].map (fun y => y.hash) ∧
       hashHeader hdrA ∉ (mapKeys stR2b.bodies).map (fun y => y.hash)) :=
  @c7_pending_set_invariant (hashHeader hdrB) 2 stR2b
    [Header.sealSlow hdrB, Header.sealSlow hdrA] stR2b_reach rfl (hashHeader hdrA)

/-- C10: a bodies response longer than the pending-header queue has its
surplus silently discarded because `insert_body` is a no-op on an empty
queue, and in every reachable state the bodies map holds at most `count`
entries. -/
theorem c10_bodies_bounded :
    (∀ (s : RangeState) (r : BodyResp), s.pendingHeaders = [] →
       insertBody s r = s) ∧
    (∀ (h : Hash) (n : Nat) (s : RangeState), RReach h n s →
       s.bodies.length ≤ s.count) := by
  constructor
  · intro s r hp
    simp [insertBody, hp]
  · intro h n s hr
    have inv := reach_rinv hr
    cases hhd : s.headers with
    | none =>
        obtain ⟨hb0, _, _⟩ := inv.preNone hhd
        simp [hb0]
    | some hs =>
        have hperm := inv.core.perm hs hhd
        have hl := hperm.length_eq
        have hlen := inv.core.hdrLen hs hhd
        have hcnt := inv.core.countEq
        have hkeys : (mapKeys s.bodies).length = s.bodies.length := by
          simp [mapKeys]
        simp only [List.length_append] at hl
        omega

theorem c10_bodies_bounded_witness : stR2b.bodies.length ≤ stR2b.count :=
  c10_bodies_bounded.2 (hashHeader hdrB) 2 stR2b stR2b_reach

theorem onHeadersResponse_isSome {s : RangeState} (hc : 1 ≤ s.count)
    (p : PeerId) (hdrs : List Header) :
    (onHeadersResponse s p hdrs).isSome = true := by
  by_cases hlen : hdrs.length = s.count
  · cases hsort : sortByNumberDesc (hdrs.map Header.sealSlow) with
    | nil =>
        have hl := sortByNumberDesc_length (hdrs.map Header.sealSlow)
        rw [hsort] at hl
        simp only [List.length_nil, List.length_map] at hl
        omega
    | cons h0 t =>
        by_cases hne : h0.hash = s.startHash
        · by_cases hv : validateHeaderRange ((h0 :: t).reverse) = true
          · cases hrb : s.reqBodies with
            | none =>
                rw [onHeadersResponse_accept hlen hsort hne hv hrb]
                rfl
            | some r =>
                rw [onHeadersResponse_accept_started hlen hsort hne hv hrb]
                rfl
          · have hv2 : validateHeaderRange ((h0 :: t).reverse) = false := by
              simpa using hv
            rw [onHeadersResponse_validate_fail hlen hsort hne hv2]
            rfl
        · rw [onHeadersResponse_start_mismatch hlen hsort hne]
          rfl
  · rw [onHeadersResponse_wrong_length hlen]
    rfl

theorem headerPhaseRange_isSome {s : RangeState}
    (hc : 1 ≤ s.count) (res : Except Unit (PeerId × List Header)) :
    (headerPhaseRange s res).isSome = true := by
  cases res with
  | error u =>
      simp only [headerPhaseRange]
      split
      · rfl
      · rfl
  | ok pr =>
      obtain ⟨p2, hdrs⟩ := pr
      have h2 := onHeadersResponse_isSome
        (s := ({ s with reqHeaders := false } : RangeState)) hc p2 hdrs
      obtain ⟨r1, hr1⟩ := Option.isSome_iff_exists.mp h2
      obtain ⟨s1, eff1⟩ := r1
      simp only [headerPhaseRange, hr1]
      split
      · rfl
      · rfl

/-- C9: in header-range acceptance the index access `headers_falling[0]` is
guarded only by the response-length check; with `count ≥ 1` every step of the
range fetcher is panic free, while with `count = 0` an empty header response
reaches the access with an empty vector and the step panics. -/
theorem c9_headers_index_guard :
    (∀ (s : RangeState) (e : RangeEvent), 1 ≤ s.count →
       (rangeStep s e).isSome = true) ∧
    rangeStep (getFullBlockRange 5 0) (RangeEvent.headerRes (Except.ok (7, []))) =
      none := by
  constructor
  · intro s e hc
    cases e with
    | headerRes res =>
        cases hph : headerPhaseRange s res with
        | none =>
            have h2 := headerPhaseRange_isSome hc res
            rw [hph] at h2
            cases h2
        | some r2 =>
            simp [rangeStep, hph]
    | bodyRes res =>
        simp [rangeStep]
  · decide

theorem c9_headers_index_guard_witness :
    (rangeStep (getFullBlockRange 5 1)
      (RangeEvent.headerRes (Except.error ()))).isSome = true :=
  c9_headers_index_guard.1 (getFullBlockRange 5 1)
    (RangeEvent.headerRes (Except.error ())) (by decide)

/-- C5: a header-range response is accepted (stored in `headers`) if and only
if its length equals the requested count, the first element after the
descending sort carries the start hash, and consensus validation of the
rising view succeeds; on acceptance the pending queue becomes the full
descending list and, when no bodies request has been started yet (which holds
in every reachable pre-acceptance state), a single `get_bodies` request for
all hashes is issued. -/
theorem c5_header_acceptance :
    (∀ (s : RangeState) (p : PeerId) (hdrs : List Header)
       (s1 : RangeState) (effs : List Effect),
       s.headers = none →
       onHeadersResponse s p hdrs = some (s1, effs) →
       ((s1.headers).isSome = true ↔
         (hdrs.length = s.count ∧
          ((sortByNumberDesc (hdrs.map Header.sealSlow)).map
            (fun x => x.hash)).head? = some s.startHash ∧
          validateHeaderRange
            (sortByNumberDesc (hdrs.map Header.sealSlow)).reverse = true))) ∧
    (∀ (s : RangeState) (p : PeerId) (hdrs : List Header)
       (s1 : RangeState) (effs : List Effect),
       s.headers = none → s.reqBodies = none →
       onHeadersResponse s p hdrs = some (s1, effs) → (s1.headers).isSome = true →
       s1.headers = some (sortByNumberDesc (hdrs.map Header.sealSlow)) ∧
       s1.pendingHeaders = sortByNumberDesc (hdrs.map Header.sealSlow) ∧
       s1.reqBodies = some ((sortByNumberDesc (hdrs.map Header.sealSlow)).map
         (fun x => x.hash)) ∧
       effs = [Effect.issueBodyReq ((sortByNumberDesc (hdrs.map Header.sealSlow)).map
         (fun x => x.hash))]) ∧
    (∀ (s : RangeState) (p : PeerId) (hdrs : List Header)
       (s1 : RangeState) (effs : List Effect) (r : List Hash),
       s.headers = none → s.reqBodies = some r →
       onHeadersResponse s p hdrs = some (s1, effs) → (s1.headers).isSome = true →
       s1.reqBodies = some r ∧ effs = []) ∧
    (∀ (h : Hash) (n : Nat) (s : RangeState), RReach h n s → s.headers = none →
       s.reqBodies = none) := by
  refine ⟨?_, ?_, ?_, ?_⟩
  · intro s p hdrs s1 effs hhd hresp
    by_cases hlen : hdrs.length = s.count
    · cases hsort : sortByNumberDesc (hdrs.map Header.sealSlow) with
      | nil =>
          rw [onHeadersResponse_panic hlen hsort] at hresp
          cases hresp
      | cons h0 t =>
          by_cases hne : h0.hash = s.startHash
          · by_cases hv : validateHeaderRange ((h0 :: t).reverse) = true
            · cases hrb : s.reqBodies with
              | none =>
                  rw [onHeadersResponse_accept hlen hsort hne hv hrb] at hresp
                  obtain ⟨h1, _⟩ := Prod.mk.injEq .. ▸ Option.some.inj hresp
                  constructor
                  · intro _
                    refine ⟨hlen, ?_, ?_⟩
                    · simp [hne]
                    · exact hv
                  · intro _
                    rw [← h1]
                    rfl
              | some r =>
                  rw [onHeadersResponse_accept_started hlen hsort hne hv hrb] at hresp
                  obtain ⟨h1, _⟩ := Prod.mk.injEq .. ▸ Option.some.inj hresp
                  constructor
                  · intro _
                    refine ⟨hlen, ?_, ?_⟩
                    · simp [hne]
                    · exact hv
                  · intro _
                    rw [← h1]
                    rfl
            · have hv2 : validateHeaderRange ((h0 :: t).reverse) = false := by
                simpa using hv
              rw [onHeadersResponse_validate_fail hlen hsort hne hv2] at hresp
              obtain ⟨h1, _⟩ := Prod.mk.injEq .. ▸ Option.some.inj hresp
              constructor
              · intro hsome
                rw [← h1, hhd] at hsome
                cases hsome
              · intro hconds
                exact absurd hconds.2.2 hv
          · rw [onHeadersResponse_start_mismatch hlen hsort hne] at hresp
            obtain ⟨h1, _⟩ := Prod.mk.injEq .. ▸ Option.some.inj hresp
            constructor
            · intro hsome
              rw [← h1, hhd] at hsome
              cases hsome
            · intro hconds
              have h2 := hconds.2.1
              simp only [List.map_cons, List.head?_cons, Option.some.injEq] at h2
              exact absurd h2 hne
    · rw [onHeadersResponse_wrong_length hlen] at hresp
      obtain ⟨h1, _⟩ := Prod.mk.injEq .. ▸ Option.some.inj hresp
      constructor
      · intro hsome
        rw [← h1, hhd] at hsome
        cases hsome
      · intro hconds
        exact absurd hconds.1 hlen
  · intro s p hdrs s1 effs hhd hrb hresp hsome
    by_cases hlen : hdrs.length = s.count
    · cases hsort : sortByNumberDesc (hdrs.map Header.sealSlow) with
      | nil =>
          rw [onHeadersResponse_panic hlen hsort] at hresp
          cases hresp
      | cons h0 t =>
          by_cases hne : h0.hash = s.startHash
          · by_cases hv : validateHeaderRange ((h0 :: t).reverse) = true
            · rw [onHeadersResponse_accept hlen hsort hne hv hrb] at hresp
              obtain ⟨h1, h2⟩ := Prod.mk.injEq .. ▸ Option.some.inj hresp
              rw [← h1, ← h2]
              exact ⟨rfl, rfl, rfl, rfl⟩
            · have hv2 : validateHeaderRange ((h0 :: t).reverse) = false := by
                simpa using hv
              rw [onHeadersResponse_validate_fail hlen hsort hne hv2] at hresp
              obtain ⟨h1, _⟩ := Prod.mk.injEq .. ▸ Option.some.inj hresp
              rw [← h1, hhd] at hsome
              cases hsome
          · rw [onHeadersResponse_start_mismatch hlen hsort hne] at hresp
            obtain ⟨h1, _⟩ := Prod.mk.injEq .. ▸ Option.some.inj hresp
            rw [← h1, hhd] at hsome
            cases hsome
    · rw [onHeadersResponse_wrong_length hlen] at hresp
      obtain ⟨h1, _⟩ := Prod.mk.injEq .. ▸ Option.some.inj hresp
      rw [← h1, hhd] at hsome
      cases hsome
  · intro s p hdrs s1 effs r hhd hrb hresp hsome
    by_cases hlen : hdrs.length = s.count
    · cases hsort : sortByNumberDesc (hdrs.map Header.sealSlow) with
      | nil =>
          rw [onHeadersResponse_panic hlen hsort] at hresp
          cases hresp
      | cons h0 t =>
          by_cases hne : h0.hash = s.startHash
          · by_cases hv : validateHeaderRange ((h0 :: t).reverse) = true
            · rw [onHeadersResponse_accept_started hlen hsort hne hv hrb] at hresp
              obtain ⟨h1, h2⟩ := Prod.mk.injEq .. ▸ Option.some.inj hresp
              rw [← h1, ← h2]
              exact ⟨hrb, rfl⟩
            · have hv2 : validateHeaderRange ((h0 :: t).reverse) = false := by
                simpa using hv
              rw [onHeadersResponse_validate_fail hlen hsort hne hv2] at hresp
              obtain ⟨h1, _⟩ := Prod.mk.injEq .. ▸ Option.some.inj hresp
              rw [← h1, hhd] at hsome
              cases hsome
          · rw [onHeadersResponse_start_mismatch hlen hsort hne] at hresp
            obtain ⟨h1, _⟩ := Prod.mk.injEq .. ▸ Option.some.inj hresp
            rw [← h1, hhd] at hsome
            cases hsome
    · rw [onHeadersResponse_wrong_length hlen] at hresp
      obtain ⟨h1, _⟩ := Prod.mk.injEq .. ▸ Option.some.inj hresp
      rw [← h1, hhd] at hsome
      cases hsome
  · intro h n s hr hhd
    exact ((reach_rinv hr).preNone hhd).2.2

/-- Range fetcher state produced by the acceptance path taken directly from
the initial `(hash hdrA, 1)` state, used to witness header acceptance. -/
def stC5 : RangeState :=
  { startHash := hashHeader hdrA, count := 1, reqHeaders := true,
    reqBodies := some [hashHeader hdrA], headers := some [Header.sealSlow hdrA],
    pendingHeaders := [Header.sealSlow hdrA], bodies := [] }

theorem c5_header_acceptance_witness :
    stC5.headers = some (sortByNumberDesc ([hdrA].map Header.sealSlow)) ∧
    stC5.pendingHeaders = sortByNumberDesc ([hdrA].map Header.sealSlow) ∧
    stC5.reqBodies = some ((sortByNumberDesc ([hdrA].map Header.sealSlow)).map
      (fun x => x.hash)) ∧
    [Effect.issueBodyReq [hashHeader hdrA]] =
      [Effect.issueBodyReq ((sortByNumberDesc ([hdrA].map Header.sealSlow)).map
        (fun x => x.hash))] :=
  c5_header_acceptance.2.1 (getFullBlockRange (hashHeader hdrA) 1) 7 [hdrA] stC5
    [Effect.issueBodyReq [hashHeader hdrA]] rfl rfl (by decide) (by decide)

/-- C6: in both fetchers a body is stored (or re-inserted) as `Validated`
only after `validate_body` succeeded on it against the exact header it is
paired with, and every body received before validation is held as
`PendingValidation` carrying its originating peer id. -/
theorem c6_validated_only_after_validation :
    (∀ (h : Hash) (n : Nat) (s : RangeState), RReach h n s →
       ∀ k b, (k, BodyResp.validated b) ∈ s.bodies →
         validateBody k.header b = true) ∧
    (∀ (s : RangeState) (p : PeerId) (bs : List Body) (k : SealedHeader)
       (v : BodyResp),
       (k, v) ∈ (insertBodies s
         (bs.map (fun b => BodyResp.pendingValidation p b))).bodies →
       (k, v) ∈ s.bodies ∨ ∃ b ∈ bs, v = BodyResp.pendingValidation p b) ∧
    (∀ (s : SingleState) (p : PeerId) (b : Body) (sh : SealedHeader),
       s.header = some sh → validateBody sh.header b = true →
       onBlockResponse s p b = ({ s with body := some (BodyResp.validated b) }, [])) ∧
    (∀ (s : SingleState) (p : PeerId) (b : Body) (sh : SealedHeader),
       s.header = some sh → validateBody sh.header b = false →
       onBlockResponse s p b = (s, [Effect.reportBadPeer p])) ∧
    (∀ (s : SingleState) (p : PeerId) (b : Body),
       s.header = none →
       onBlockResponse s p b =
         ({ s with body := some (BodyResp.pendingValidation p b) }, [])) := by
  refine ⟨?_, ?_, ?_, ?_, ?_⟩
  · intro h n s hr k b hkb
    exact (reach_rinv hr).core.validated k b hkb
  · intro s p bs k v hkv
    rcases insertBodies_entries _ s k v hkv with h2 | h2
    · exact Or.inl h2
    · obtain ⟨b, hb, hbv⟩ := List.mem_map.mp h2
      exact Or.inr ⟨b, hb, hbv.symm⟩
  · intro s p b sh hhd hv
    simp [onBlockResponse, hhd, hv]
  · intro s p b sh hhd hv
    simp [onBlockResponse, hhd, hv]
  · intro s p b hhd
    simp [onBlockResponse, hhd]

theorem c6_validated_only_after_validation_witness :
    validateBody (Header.sealSlow hdrB).header bodyA = true :=
  c6_validated_only_after_validation.1 (hashHeader hdrB) 2 stR2d stR2d_reach
    (Header.sealSlow hdrB) bodyA (by decide)

theorem takeBlocks_headers_none {s : RangeState} (hhd : s.headers = none) :
    takeBlocks s = (s, [], none) := by
  simp [takeBlocks, hhd]

theorem takeBlocks_not_complete {s : RangeState}
    (hc : isBodiesComplete s = false) :
    takeBlocks s = (s, [], none) := by
  simp [takeBlocks, hc]

theorem takeBlocksLoop_zip (p : PeerId) :
    ∀ (hs : List SealedHeader) (bs : List Body) (acc : TBAcc),
      bs.length = hs.length →
      acc.bodies = hs.zip (bs.map (fun b => BodyResp.pendingValidation p b)) →
      takeBlocksLoop hs acc =
        { bodies := []
          pending := acc.pending ++ (hs.zip bs).filterMap
            (fun xb => if validateBody xb.1.header xb.2 then none else some xb.1)
          valid := acc.valid ++ (hs.zip bs).filterMap
            (fun xb => if validateBody xb.1.header xb.2 then some (xb.1, xb.2) else none)
          effs := acc.effs ++ (hs.zip bs).filterMap
            (fun xb => if validateBody xb.1.header xb.2 then none
                       else some (Effect.reportBadPeer p))
          needsRetry := acc.needsRetry ||
            !((hs.zip bs).all (fun xb => validateBody xb.1.header xb.2)) } := by
  intro hs
  induction hs with
  | nil =>
      intro bs acc hlen hacc
      have hbs : bs = [] := List.length_eq_zero.mp hlen
      subst hbs
      cases acc with
      | mk bo pe va ef nr =>
          simp only [List.map_nil, List.zip_nil_right] at hacc
          simp [takeBlocksLoop, hacc]
  | cons h t ih =>
      intro bs acc hlen hacc
      cases bs with
      | nil => simp at hlen
      | cons b bt =>
          have hlen2 : bt.length = t.length := by simpa using hlen
          have hrem : mapRemove acc.bodies h =
              (some (BodyResp.pendingValidation p b),
               t.zip (bt.map (fun b2 => BodyResp.pendingValidation p b2))) := by
            rw [hacc]
            simp [mapRemove]
            rfl
          by_cases hv : validateBody h.header b = true
          · rw [show takeBlocksLoop (h :: t) acc =
                takeBlocksLoop t
                  { acc with
                    bodies := t.zip (bt.map (fun b2 => BodyResp.pendingValidation p b2))
                    valid := acc.valid ++ [(h, b)] } by
              simp [takeBlocksLoop, hrem, hv]]
            rw [ih bt _ hlen2 rfl]
            simp [hv, List.append_assoc]
          · have hv2 : validateBody h.header b = false := by
              simpa using hv
            rw [show takeBlocksLoop (h :: t) acc =
                takeBlocksLoop t
                  { acc with
                    bodies := t.zip (bt.map (fun b2 => BodyResp.pendingValidation p b2))
                    pending := acc.pending ++ [h]
                    effs := acc.effs ++ [Effect.reportBadPeer p]
                    needsRetry := true } by
              simp [takeBlocksLoop, hrem, hv2]]
            rw [ih bt _ hlen2 rfl]
            simp [hv2, List.append_assoc]

theorem countReports_append (l1 l2 : List Effect) :
    countReports (l1 ++ l2) = countReports l1 + countReports l2 := by
  simp [countReports, List.filter_append]

theorem countReports_single_not (e : Effect) (he : Effect.isReport e = false) :
    countReports [e] = 0 := by
  simp [countReports, he]

theorem isReport_issueBodyReq (l : List Hash) :
    Effect.isReport (Effect.issueBodyReq l) = false := rfl

theorem countReports_cons_report (p : PeerId) (l : List Effect) :
    countReports (Effect.reportBadPeer p :: l) = countReports l + 1 := by
  simp [countReports, List.filter_cons, Effect.isReport]

theorem countReports_filterMap_reports (p : PeerId) (P : SealedHeader × Body → Bool)
    (l : List (SealedHeader × Body)) :
    countReports (l.filterMap (fun xb =>
        if P xb then none else some (Effect.reportBadPeer p))) =
      (l.filter (fun xb => P xb == false)).length := by
  induction l with
  | nil => rfl
  | cons a t ih =>
      by_cases hp : P a = true
      · simpa [List.filterMap_cons, List.filter_cons, hp] using ih
      · have hp2 : P a = false := by simpa using hp
        simp only [List.filterMap_cons, List.filter_cons, hp2]
        simp only [Bool.false_eq_true, if_false, countReports_cons_report]
        simpa [hp2] using ih

/-- C3 counterexample: (i) a header-range response of the wrong length (one
header against a requested count of two) is rejected and the header request
retried, yet the step emits no bad-peer report at all; (ii) from a reachable
state with two accepted headers, one bodies response whose two bodies both
fail deferred validation draws two bad-peer reports — one per failing body —
before the single bodies retry is issued.  Both refute the claim that every
rejected response produces exactly one report before the retry. -/
theorem c3_counterexample :
    (rangeStep (getFullBlockRange 5 2) (RangeEvent.headerRes (Except.ok (7, [hdrA]))) =
       some (getFullBlockRange 5 2, [Effect.issueHeaderReq 5 2], none) ∧
     countReports [Effect.issueHeaderReq 5 2] = 0) ∧
    (RReach (hashHeader hdrB) 2 stR2a ∧
     rangeStep stR2a (RangeEvent.bodyRes (Except.ok (8, [bodyBad, bodyBad]))) =
       some (stR2a,
             [Effect.reportBadPeer 8, Effect.reportBadPeer 8,
              Effect.issueBodyReq [hashHeader hdrB, hashHeader hdrA]], none) ∧
     countReports
       [Effect.reportBadPeer 8, Effect.reportBadPeer 8,
        Effect.issueBodyReq [hashHeader hdrB, hashHeader hdrA]] = 2) := by
  exact ⟨⟨by decide, by decide⟩, stR2a_reach, by decide, by decide⟩

/-- C3 amended: a start-hash mismatch, a header-range consensus failure, a
single-block header-hash mismatch, and a single-block body-validation
failure each produce exactly one bad-peer report, emitted before the retry
of the same slot is issued; a header-range response of the wrong length is
silently discarded without a report, the header request being retried; and
a range bodies response failing deferred validation draws one bad-peer
report per failing body — not one per response — all carrying the
originating peer id and all emitted before the single bodies retry for the
failed headers is issued. -/
theorem c3_reports_before_retry :
    (∀ (s : RangeState) (p : PeerId) (hdrs : List Header),
       s.headers = none → hdrs.length ≠ s.count →
       rangeStep s (RangeEvent.headerRes (Except.ok (p, hdrs))) =
         some ({ s with reqHeaders := true },
               [Effect.issueHeaderReq s.startHash s.count], none)) ∧
    (∀ (s : RangeState) (p : PeerId) (hdrs : List Header) (h0 : SealedHeader)
       (t : List SealedHeader),
       s.headers = none → hdrs.length = s.count →
       sortByNumberDesc (hdrs.map Header.sealSlow) = h0 :: t →
       h0.hash ≠ s.startHash →
       rangeStep s (RangeEvent.headerRes (Except.ok (p, hdrs))) =
         some ({ s with reqHeaders := true },
               [Effect.reportBadPeer p,
                Effect.issueHeaderReq s.startHash s.count], none)) ∧
    (∀ (s : RangeState) (p : PeerId) (hdrs : List Header) (h0 : SealedHeader)
       (t : List SealedHeader),
       s.headers = none → hdrs.length = s.count →
       sortByNumberDesc (hdrs.map Header.sealSlow) = h0 :: t →
       h0.hash = s.startHash →
       validateHeaderRange ((h0 :: t).reverse) = false →
       rangeStep s (RangeEvent.headerRes (Except.ok (p, hdrs))) =
         some ({ s with reqHeaders := true },
               [Effect.reportBadPeer p,
                Effect.issueHeaderReq s.startHash s.count], none)) ∧
    (∀ (s : SingleState) (p : PeerId) (hd : Header),
       s.header = none → (Header.sealSlow hd).hash ≠ s.hash →
       singleStep s (SingleEvent.headerRes (Except.ok (p, some hd))) =
         ({ s with reqHeader := true },
          [Effect.reportBadPeer p, Effect.issueSingleHeaderReq s.hash], none)) ∧
    (∀ (s : SingleState) (p : PeerId) (b : Body) (sh : SealedHeader),
       s.header = some sh → s.body = none → validateBody sh.header b = false →
       singleStep s (SingleEvent.bodyRes (Except.ok (p, some b))) =
         ({ s with reqBody := true },
          [Effect.reportBadPeer p, Effect.issueSingleBodyReq s.hash], none)) ∧
    (∀ (s : SingleState) (p q : PeerId) (hd : Header) (b : Body),
       s.header = none → s.body = some (BodyResp.pendingValidation q b) →
       (Header.sealSlow hd).hash = s.hash →
       validateBody (Header.sealSlow hd).header b = false →
       singleStep s (SingleEvent.headerRes (Except.ok (p, some hd))) =
         ({ s with
            reqHeader := false
            header := some (Header.sealSlow hd)
            body := none
            reqBody := true },
          [Effect.reportBadPeer q, Effect.issueSingleBodyReq s.hash], none)) ∧
    (∀ (s : RangeState) (p : PeerId) (hs : List SealedHeader) (bs : List Body),
       s.headers = some hs → s.pendingHeaders = hs → s.bodies = [] →
       s.count = hs.length → hs.Nodup → hs ≠ [] → bs.length = hs.length →
       (∃ xb ∈ hs.zip bs, validateBody xb.1.header xb.2 = false) →
       ∃ s2 effs,
         rangeStep s (RangeEvent.bodyRes (Except.ok (p, bs))) =
           some (s2, effs, none) ∧
         effs =
           (hs.zip bs).filterMap (fun xb =>
             if validateBody xb.1.header xb.2 then none
             else some (Effect.reportBadPeer p)) ++
           [Effect.issueBodyReq (((hs.zip bs).filterMap (fun xb =>
              if validateBody xb.1.header xb.2 then none
              else some xb.1)).map (fun x => x.hash))] ∧
         countReports effs =
           ((hs.zip bs).filter
             (fun xb => validateBody xb.1.header xb.2 == false)).length) := by
  refine ⟨?_, ?_, ?_, ?_, ?_, ?_, ?_⟩
  · intro s p hdrs hhd hlen
    have hph := headerPhaseRange_ok_wrong_length (p := p) hhd hlen
    have htb := takeBlocks_headers_none
      (s := ({ s with reqHeaders := true } : RangeState)) hhd
    simp [rangeStep, hph, htb]
  · intro s p hdrs h0 t hhd hlen hsort hne
    have hph := headerPhaseRange_ok_start_mismatch (p := p) hhd hlen hsort hne
    have htb := takeBlocks_headers_none
      (s := ({ s with reqHeaders := true } : RangeState)) hhd
    simp [rangeStep, hph, htb]
  · intro s p hdrs h0 t hhd hlen hsort heq0 hvf
    have hph := headerPhaseRange_ok_validate_fail (p := p) hhd hlen hsort heq0 hvf
    have htb := takeBlocks_headers_none
      (s := ({ s with reqHeaders := true } : RangeState)) hhd
    simp [rangeStep, hph, htb]
  · intro s p hd hhd hne
    have hph : headerPhaseSingle s (Except.ok (p, some hd)) =
        ({ s with reqHeader := true },
         [Effect.reportBadPeer p, Effect.issueSingleHeaderReq s.hash]) := by
      simp [headerPhaseSingle, onHeaderResponseSingle, hne, hhd]
    have htb : takeBlock ({ s with reqHeader := true } : SingleState) =
        ({ s with reqHeader := true }, [], none) := by
      simp [takeBlock, hhd]
    simp [singleStep, hph, htb]
  · intro s p b sh hhd hbd hv
    have hph : bodyPhaseSingle s (Except.ok (p, some b)) =
        ({ s with reqBody := true },
         [Effect.reportBadPeer p, Effect.issueSingleBodyReq s.hash]) := by
      simp [bodyPhaseSingle, onBlockResponse, hhd, hv, hbd]
    have htb : takeBlock ({ s with reqBody := true } : SingleState) =
        ({ s with reqBody := true }, [], none) := by
      simp [takeBlock, hhd, hbd]
    simp [singleStep, hph, htb]
  · intro s p q hd b hhd hbd heq0 hv
    have hph : headerPhaseSingle s (Except.ok (p, some hd)) =
        ({ s with reqHeader := false, header := some (Header.sealSlow hd) }, []) := by
      simp [headerPhaseSingle, onHeaderResponseSingle, heq0]
    have htb : takeBlock ({ s with
        reqHeader := false
        header := some (Header.sealSlow hd) } : SingleState) =
        ({ s with
           reqHeader := false
           header := some (Header.sealSlow hd)
           body := none
           reqBody := true },
         [Effect.reportBadPeer q, Effect.issueSingleBodyReq s.hash], none) := by
      simp [takeBlock, hbd, hv]
    simp [singleStep, hph, htb]
  · intro s p hs bs hh hp hb hc hnd hne hlen hfail
    have hrslen : (bs.map (fun b => BodyResp.pendingValidation p b)).length =
        hs.length := by
      simp [hlen]
    have hfresh : ∀ x ∈ hs,
        x ∉ mapKeys ({ s with reqBodies := none } : RangeState).bodies := by
      intro x _
      show x ∉ mapKeys s.bodies
      rw [hb]
      simp [mapKeys]
    have hzip := insertBodies_zip hs (bs.map (fun b => BodyResp.pendingValidation p b))
      ({ s with reqBodies := none } : RangeState) hp hrslen hfresh hnd
    have hpend1 : (insertBodies { s with reqBodies := none }
        (bs.map (fun b => BodyResp.pendingValidation p b))).pendingHeaders = [] := by
      rw [hzip]
    have hbod1 : (insertBodies { s with reqBodies := none }
        (bs.map (fun b => BodyResp.pendingValidation p b))).bodies =
        hs.zip (bs.map (fun b => BodyResp.pendingValidation p b)) := by
      rw [hzip]
      show s.bodies ++ _ = _
      rw [hb]
      simp
    have hhd1 : (insertBodies { s with reqBodies := none }
        (bs.map (fun b => BodyResp.pendingValidation p b))).headers = some hs := by
      rw [(insertBodies_fields _ _).2.2.2.2]
      exact hh
    have hcnt1 : (insertBodies { s with reqBodies := none }
        (bs.map (fun b => BodyResp.pendingValidation p b))).count = hs.length := by
      rw [(insertBodies_fields _ _).2.1]
      exact hc
    have hziplen : (hs.zip (bs.map (fun b => BodyResp.pendingValidation p b))).length =
        hs.length := by
      rw [List.length_zip, hrslen]
      exact Nat.min_self _
    have hcomp : isBodiesComplete (insertBodies { s with reqBodies := none }
        (bs.map (fun b => BodyResp.pendingValidation p b))) = true := by
      simp [isBodiesComplete, hbod1, hcnt1, hziplen]
    have hzipne : hs.zip (bs.map (fun b => BodyResp.pendingValidation p b)) ≠ [] := by
      cases hhs : hs with
      | nil => exact absurd hhs hne
      | cons x t =>
          cases hbs : bs with
          | nil =>
              rw [hhs, hbs] at hlen
              simp at hlen
          | cons y t2 =>
              intro hcontra
              simp at hcontra
    have hempF : (insertBodies { s with reqBodies := none }
        (bs.map (fun b => BodyResp.pendingValidation p b))).bodies.isEmpty = false := by
      rw [hbod1]
      cases hzz : hs.zip (bs.map (fun b => BodyResp.pendingValidation p b)) with
      | nil => exact absurd hzz hzipne
      | cons a l => rfl
    have hph : bodyPhaseRange s (Except.ok (p, bs)) =
        (insertBodies { s with reqBodies := none }
          (bs.map (fun b => BodyResp.pendingValidation p b)), []) := by
      simp [bodyPhaseRange, hcomp, hempF]
    have hloop := takeBlocksLoop_zip p hs bs
      { bodies := hs.zip (bs.map (fun b => BodyResp.pendingValidation p b))
        pending := []
        valid := []
        effs := []
        needsRetry := false } hlen rfl
    have hall : (hs.zip bs).all (fun xb => validateBody xb.1.header xb.2) = false := by
      obtain ⟨xb, hmem, hfv⟩ := hfail
      rw [List.all_eq_false]
      exact ⟨xb, hmem, by simp [hfv]⟩
    have htb2 : (takeBlocks (insertBodies { s with reqBodies := none }
        (bs.map (fun b => BodyResp.pendingValidation p b)))).2 =
        ((hs.zip bs).filterMap (fun xb =>
           if validateBody xb.1.header xb.2 then none
           else some (Effect.reportBadPeer p)) ++
         [Effect.issueBodyReq (((hs.zip bs).filterMap (fun xb =>
            if validateBody xb.1.header xb.2 then none
            else some xb.1)).map (fun x => x.hash))],
         none) := by
      simp [takeBlocks, hcomp, hhd1, hbod1, hpend1, hloop, hall, remainingBodiesHashes]
    refine ⟨(takeBlocks (insertBodies { s with reqBodies := none }
      (bs.map (fun b => BodyResp.pendingValidation p b)))).1, _, ?_, rfl, ?_⟩
    · simp [rangeStep, hph, htb2]
    · rw [countReports_append, countReports_single_not _ (isReport_issueBodyReq _),
        Nat.add_zero]
      exact countReports_filterMap_reports p
        (fun xb => validateBody xb.1.header xb.2) (hs.zip bs)

theorem c3_reports_before_retry_witness :
    rangeStep (getFullBlockRange 5 1) (RangeEvent.headerRes (Except.ok (7, [hdrA]))) =
      some ({ getFullBlockRange 5 1 with reqHeaders := true },
            [Effect.reportBadPeer 7, Effect.issueHeaderReq 5 1], none) :=
  c3_reports_before_retry.2.1 (getFullBlockRange 5 1) 7 [hdrA]
    (Header.sealSlow hdrA) [] rfl (by decide) (by decide) (by decide)

/-- C4 counterexample: at a reachable state with a nonempty bodies map and a
bodies sub-request in flight, a transport error on that sub-request leaves
the operation with no outstanding request at all while the bodies map is
still incomplete, refuting the claim that after every transport error the
same sub-request is re-issued. -/
theorem c4_counterexample :
    RReach (hashHeader hdrB) 2 stR2b ∧
    stR2b.bodies ≠ [] ∧
    (stR2b.reqBodies).isSome = true ∧
    rangeStep stR2b (RangeEvent.bodyRes (Except.error ())) =
      some ({ stR2b with reqBodies := none }, [], none) ∧
    ({ stR2b with reqBodies := none } : RangeState).reqHeaders = false ∧
    isBodiesComplete { stR2b with reqBodies := none } = false :=
  ⟨stR2b_reach, by decide, by decide, by decide, by decide, by decide⟩

/-- C4 amended: a transport error leaves the slot empty and the sub-request
is re-issued in the single-block fetcher (header and body) and for the
header range; a body-range transport error re-issues the body request only
when the bodies map is empty and headers are pending (in particular, an
error with an empty bodies map re-issues the body request, not the header
request), while with a nonempty bodies map no request is re-issued at all. -/
theorem c4_transport_error_reissue :
    (∀ (s : SingleState) (u : Unit), s.header = none →
       singleStep s (SingleEvent.headerRes (Except.error u)) =
         ({ s with reqHeader := true },
          [Effect.issueSingleHeaderReq s.hash], none)) ∧
    (∀ (s : SingleState) (u : Unit), s.body = none →
       singleStep s (SingleEvent.bodyRes (Except.error u)) =
         ({ s with reqBody := true },
          [Effect.issueSingleBodyReq s.hash], none)) ∧
    (∀ (s : RangeState) (u : Unit), s.headers = none →
       rangeStep s (RangeEvent.headerRes (Except.error u)) =
         some ({ s with reqHeaders := true },
               [Effect.issueHeaderReq s.startHash s.count], none)) ∧
    (∀ (s : RangeState) (u : Unit),
       s.bodies = [] → s.pendingHeaders ≠ [] → s.bodies.length ≠ s.count →
       rangeStep s (RangeEvent.bodyRes (Except.error u)) =
         some ({ s with reqBodies := some (s.pendingHeaders.map (fun x => x.hash)) },
               [Effect.issueBodyReq (s.pendingHeaders.map (fun x => x.hash))], none)) ∧
    (∀ (s : RangeState) (u : Unit),
       s.bodies ≠ [] → s.bodies.length ≠ s.count →
       rangeStep s (RangeEvent.bodyRes (Except.error u)) =
         some ({ s with reqBodies := none }, [], none)) := by
  refine ⟨?_, ?_, ?_, ?_, ?_⟩
  · intro s u hhd
    have hph : headerPhaseSingle s (Except.error u) =
        ({ s with reqHeader := true }, [Effect.issueSingleHeaderReq s.hash]) := by
      simp [headerPhaseSingle, hhd]
    have htb : takeBlock ({ s with reqHeader := true } : SingleState) =
        ({ s with reqHeader := true }, [], none) := by
      simp [takeBlock, hhd]
    simp [singleStep, hph, htb]
  · intro s u hbd
    have hph : bodyPhaseSingle s (Except.error u) =
        ({ s with reqBody := true }, [Effect.issueSingleBodyReq s.hash]) := by
      simp [bodyPhaseSingle, hbd]
    have htb : takeBlock ({ s with reqBody := true } : SingleState) =
        ({ s with reqBody := true }, [], none) := by
      cases hhd : s.header with
      | none => simp [takeBlock, hhd]
      | some sh => simp [takeBlock, hhd, hbd]
    simp [singleStep, hph, htb]
  · intro s u hhd
    have hph := headerPhaseRange_error s u hhd
    have htb := takeBlocks_headers_none
      (s := ({ s with reqHeaders := true } : RangeState)) hhd
    simp [rangeStep, hph, htb]
  · intro s u hb hpend hlen
    have hemp : s.bodies.isEmpty = true := by
      rw [hb]
      rfl
    have hne2 : (s.pendingHeaders.map (fun x => x.hash)).isEmpty = false := by
      cases hpd : s.pendingHeaders with
      | nil => exact absurd hpd hpend
      | cons a l => rfl
    have hph : bodyPhaseRange s (Except.error u) =
        ({ s with reqBodies := some (s.pendingHeaders.map (fun x => x.hash)) },
         [Effect.issueBodyReq (s.pendingHeaders.map (fun x => x.hash))]) := by
      simp [bodyPhaseRange, remainingBodiesHashes, hemp, hne2]
    have hc : isBodiesComplete ({ s with
        reqBodies := some (s.pendingHeaders.map (fun x => x.hash)) } : RangeState) =
        false := by
      simp only [isBodiesComplete]
      simpa using hlen
    have htb := takeBlocks_not_complete hc
    simp [rangeStep, hph, htb]
  · intro s u hb hlen
    have hemp : s.bodies.isEmpty = false := by
      cases hbb : s.bodies with
      | nil => exact absurd hbb hb
      | cons a l => rfl
    have hph : bodyPhaseRange s (Except.error u) =
        ({ s with reqBodies := none }, []) := by
      simp [bodyPhaseRange, hemp]
    have hc : isBodiesComplete ({ s with reqBodies := none } : RangeState) =
        false := by
      simp only [isBodiesComplete]
      simpa using hlen
    have htb := takeBlocks_not_complete hc
    simp [rangeStep, hph, htb]

theorem c4_transport_error_reissue_witness :
    rangeStep stR2a (RangeEvent.bodyRes (Except.error ())) =
      some ({ stR2a with
              reqBodies := some (stR2a.pendingHeaders.map (fun x => x.hash)) },
            [Effect.issueBodyReq (stR2a.pendingHeaders.map (fun x => x.hash))],
            none) :=
  c4_transport_error_reissue.2.2.2.1 stR2a () (by decide) (by decide) (by decide)

/-- C8: from the state right after a successful header round trip, a single
bodies response containing one body per pending header in request-hash
order, all passing body validation, resolves the range fetcher without any
further `get_bodies` request (empty effect list). -/
theorem c8_positional_single_round_trip {s : RangeState} {hs : List SealedHeader}
    {bs : List Body} {p : PeerId} {r : List Hash}
    (hh : s.headers = some hs) (hp : s.pendingHeaders = hs) (hb : s.bodies = [])
    (hc : s.count = hs.length) (hnd : hs.Nodup) (hne : hs ≠ [])
    (hrq : s.reqBodies = some r)
    (hval : List.Forall₂ (fun (x : SealedHeader) (b : Body) =>
      validateBody x.header b = true) hs bs) :
    ∃ s2 blocks, rangeStep s (RangeEvent.bodyRes (Except.ok (p, bs))) =
      some (s2, [], some blocks) := by
  have hlen2 : hs.length = bs.length := hval.length_eq
  have hrslen : (bs.map (fun b => BodyResp.pendingValidation p b)).length =
      hs.length := by
    simp [← hlen2]
  have hfresh : ∀ x ∈ hs,
      x ∉ mapKeys ({ s with reqBodies := none } : RangeState).bodies := by
    intro x _
    show x ∉ mapKeys s.bodies
    rw [hb]
    simp [mapKeys]
  have hzip := insertBodies_zip hs (bs.map (fun b => BodyResp.pendingValidation p b))
    ({ s with reqBodies := none } : RangeState) hp hrslen hfresh hnd
  have hpend1 : (insertBodies { s with reqBodies := none }
      (bs.map (fun b => BodyResp.pendingValidation p b))).pendingHeaders = [] := by
    rw [hzip]
  have hbod1 : (insertBodies { s with reqBodies := none }
      (bs.map (fun b => BodyResp.pendingValidation p b))).bodies =
      hs.zip (bs.map (fun b => BodyResp.pendingValidation p b)) := by
    rw [hzip]
    show s.bodies ++ _ = _
    rw [hb]
    simp
  have hhd1 : (insertBodies { s with reqBodies := none }
      (bs.map (fun b => BodyResp.pendingValidation p b))).headers = some hs := by
    rw [(insertBodies_fields _ _).2.2.2.2]
    exact hh
  have hcnt1 : (insertBodies { s with reqBodies := none }
      (bs.map (fun b => BodyResp.pendingValidation p b))).count = hs.length := by
    rw [(insertBodies_fields _ _).2.1]
    exact hc
  have hziplen : (hs.zip (bs.map (fun b => BodyResp.pendingValidation p b))).length =
      hs.length := by
    rw [List.length_zip, hrslen]
    exact Nat.min_self _
  have hcomp : isBodiesComplete (insertBodies { s with reqBodies := none }
      (bs.map (fun b => BodyResp.pendingValidation p b))) = true := by
    simp [isBodiesComplete, hbod1, hcnt1, hziplen]
  have hzipne : hs.zip (bs.map (fun b => BodyResp.pendingValidation p b)) ≠ [] := by
    cases hhs : hs with
    | nil => exact absurd hhs hne
    | cons x t =>
        cases hbs : bs with
        | nil =>
            rw [hhs, hbs] at hlen2
            simp at hlen2
        | cons y t2 =>
            intro hcontra
            simp at hcontra
  have hempF : (insertBodies { s with reqBodies := none }
      (bs.map (fun b => BodyResp.pendingValidation p b))).bodies.isEmpty = false := by
    rw [hbod1]
    cases hzz : hs.zip (bs.map (fun b => BodyResp.pendingValidation p b)) with
    | nil => exact absurd hzz hzipne
    | cons a l => rfl
  have hph : bodyPhaseRange s (Except.ok (p, bs)) =
      (insertBodies { s with reqBodies := none }
        (bs.map (fun b => BodyResp.pendingValidation p b)), []) := by
    simp [bodyPhaseRange, hcomp, hempF]
  have hzipmem : ∀ k q b, (k, BodyResp.pendingValidation q b) ∈
      hs.zip (bs.map (fun b2 => BodyResp.pendingValidation p b2)) →
      validateBody k.header b = true := by
    intro k q b hkb
    rw [List.zip_map_right] at hkb
    obtain ⟨⟨x, y⟩, hxy, hmap⟩ := List.mem_map.mp hkb
    simp only [Prod.map, Prod.mk.injEq] at hmap
    obtain ⟨hx, hy⟩ := hmap
    cases hy
    have h2 := (List.forall₂_iff_zip.mp hval).2 hxy
    rw [← hx]
    exact h2
  have hvalinv : ValidatedInv
      (hs.zip (bs.map (fun b2 => BodyResp.pendingValidation p b2))) := by
    intro k b hkb
    rw [List.zip_map_right] at hkb
    obtain ⟨⟨x, y⟩, _, hmap⟩ := List.mem_map.mp hkb
    simp only [Prod.map, Prod.mk.injEq] at hmap
    cases hmap.2
  have hkeysz : mapKeys (hs.zip (bs.map (fun b2 => BodyResp.pendingValidation p b2))) =
      hs := by
    simp only [mapKeys]
    exact List.map_fst_zip _ _ (by rw [hrslen])
  obtain ⟨nv, np, reps, heq, hsubl, hperm2, hval2, hnp2, hreps2, hnr2⟩ :=
    takeBlocksLoop_spec hs
      { bodies := hs.zip (bs.map (fun b2 => BodyResp.pendingValidation p b2)),
        pending := [], valid := [], effs := [], needsRetry := false }
      hnd (by rw [hkeysz]) hvalinv
  have hnpnil : np = [] := by
    cases hnpc : np with
    | nil => rfl
    | cons hdr rest =>
        obtain ⟨q, b, hin, hfail⟩ := hnp2 hdr (hnpc ▸ List.mem_cons_self _ _)
        have h2 := hzipmem hdr q b hin
        rw [h2] at hfail
        cases hfail
  subst hnpnil
  have hrepsnil : reps = [] := hnr2 rfl
  subst hrepsnil
  simp only at heq
  have htb : takeBlocks (insertBodies { s with reqBodies := none }
      (bs.map (fun b => BodyResp.pendingValidation p b))) =
      ({ insertBodies { s with reqBodies := none }
           (bs.map (fun b => BodyResp.pendingValidation p b)) with
         headers := none, bodies := [], pendingHeaders := [] }, [], some nv) := by
    simp [takeBlocks, hcomp, hhd1, hbod1, hpend1, heq]
  refine ⟨{ insertBodies { s with reqBodies := none }
              (bs.map (fun b => BodyResp.pendingValidation p b)) with
            headers := none, bodies := [], pendingHeaders := [] }, nv, ?_⟩
  simp [rangeStep, hph, htb]

theorem c8_positional_single_round_trip_witness :
    ∃ s2 blocks,
      rangeStep stR2a (RangeEvent.bodyRes (Except.ok (8, [bodyA, bodyA]))) =
        some (s2, [], some blocks) :=
  @c8_positional_single_round_trip stR2a
    [Header.sealSlow hdrB, Header.sealSlow hdrA] [bodyA, bodyA] 8
    [hashHeader hdrB, hashHeader hdrA]
    rfl rfl rfl rfl (by decide) (by decide) rfl
    (List.Forall₂.cons (by decide) (List.Forall₂.cons (by decide) List.Forall₂.nil))
